import Mathlib

/-!
# rp2040-logic-analyzer: a shallow embedding of `rp2040-logic-analyzer.c`

The C program samples a bank of GPIO lines through a PIO state machine,
moves the packed samples into memory by DMA and prints them as CSV text.

Conventions of the embedding

* `uint`, `uint32_t`, `int` and `long` are 32 bits wide on the target
  (Cortex-M0+).  Unsigned values are naturals taken modulo `2 ^ 32` where the
  C expression can wrap; signed values are integers.
* A capture buffer (`const uint32_t *buf`) is the list of words stored behind
  the pointer.  A read past the end of the list is outside the C semantics; the
  embedding reads `0` there, and the theorems that talk about buffer contents
  carry the length of the buffer as a hypothesis.
* Calls into the SDK and libc are recorded as events (`Ev`) in program order.
-/

namespace LogicAnalyzer

/-! ## Machine constants and observable events -/

/-- Modulus of 32-bit unsigned arithmetic. -/
def UINT_MOD : Nat := 2 ^ 32

/-- The constant `LONG_MAX` of the 32-bit target, the value `strtol` saturates at. -/
def LONG_MAX : Int := 2 ^ 31 - 1

/-- The constant `LONG_MIN` of the 32-bit target. -/
def LONG_MIN : Int := -(2 ^ 31)

/-- Line 28: `const uint LED_PIN = 25;`. -/
def LED_PIN : Nat := 25

/-- A C `float` value, kept as the expression that computed it: a literal
such as `125.0f`, the conversion `(float)n` of an unsigned integer, or a
quotient of two such values.  No rounding is modelled, and a divisor may be
zero. -/
inductive FloatVal
  | lit (n : Nat)
  | of_uint (n : Nat)
  | div (a b : FloatVal)
  deriving DecidableEq, Repr

/-- An argument handed to a `printf` conversion. -/
inductive Arg
  | int (v : Int)
  | uint (v : Nat)
  | float (v : FloatVal)
  deriving DecidableEq, Repr

/-- A PIO instruction built by the SDK encoders used in the program. -/
inductive Instr
  | in_pins (bit_count : Nat)
  | wait_gpio (polarity : Bool) (gpio : Nat)
  deriving DecidableEq, Repr

/-- The state-machine configuration assembled in `logic_analyser_init`. -/
structure SmConfig where
  in_base : Nat
  wrap_target : Nat
  wrap_top : Nat
  clkdiv : FloatVal
  shift_right : Bool
  autopush : Bool
  push_threshold : Nat
  fifo_join_rx : Bool
  deriving DecidableEq, Repr

/-- The DMA channel configuration assembled in `logic_analyser_arm`, together
with the arguments of `dma_channel_configure`.  `write_addr` is the capture
buffer pointer (`0` is `NULL`); the read address is always `&pio->rxf[sm]`. -/
structure DmaSetup where
  read_increment : Bool
  write_increment : Bool
  dreq_pio_rx : Bool
  write_addr : Nat
  read_addr_rxf : Bool
  transfer_count : Nat
  start : Bool
  deriving DecidableEq, Repr

/-- A pointer of type `struct pio_program *` handed to the SDK, by the state of
the object it points to when the call is made.  The only program object of the
source is the local `capture_prog` of `logic_analyser_init` (lines 46-50): a
pointer to it is `live`, with the `length` stored in the object, while that
call runs, and `dangling` once the call has returned and the local is dead. -/
inductive ProgramPtr
  | live (length : Nat)
  | dangling
  deriving DecidableEq, Repr

/-- Observable actions of the program, in the order the C code performs them:
the calls into libc and the SDK with their arguments (and, for `malloc` and
`pio_add_program`, the value returned).  `pio_add_program` records the
instruction and the length of the program its argument points to, which is
live at that call.  `call_print_capture_buf_csv` records the call of the
decoder with its arguments; the decoder's own events follow. -/
inductive Ev
  | printf (fmt : String) (args : List Arg)
  | gpio_put (pin : Nat) (value : Bool)
  | sleep_ms (ms : Nat)
  | malloc (size : Nat) (result : Nat)
  | free (ptr : Nat)
  | pio_add_program (instr : Instr) (length : Nat) (offset : Nat)
  | pio_sm_init (initial_pc : Nat) (c : SmConfig)
  | pio_sm_set_enabled (enabled : Bool)
  | pio_sm_clear_fifos
  | dma_channel_configure (d : DmaSetup)
  | pio_sm_exec (instr : Instr)
  | dma_channel_wait_for_finish_blocking
  | call_print_capture_buf_csv (buf : Nat) (pin_base pin_count n_samples : Nat)
  | pio_remove_program (program : ProgramPtr) (offset : Nat)
  deriving DecidableEq, Repr

/-- Characters an event writes to standard output.  A `printf` of a literal
format writes the format; conversions are kept symbolic in the event. -/
def Ev.text : Ev → List Char
  | Ev.printf fmt [] => fmt.toList
  | _ => []

/-- The text written to standard output by a sequence of events. -/
def stdout_text (evs : List Ev) : List Char :=
  evs.flatMap Ev.text

/-! ## `print_capture_buf_csv` (source lines 87-105) -/

/-- Line 90: `uint bit_index = pin + sample * pin_count;` in 32-bit unsigned
arithmetic. -/
def bit_index (pin sample pin_count : Nat) : Nat :=
  (pin + (sample * pin_count) % UINT_MOD) % UINT_MOD

/-- Line 91: `bool level = !!(buf[bit_index / 32] & 1u << (bit_index % 32));`.
The shift amount is below 32, so `1u << _` does not overflow. -/
def level (buf : List Nat) (pin sample pin_count : Nat) : Bool :=
  (buf.getD (bit_index pin sample pin_count / 32) 0
    &&& (1 <<< (bit_index pin sample pin_count % 32))) != 0

/-- Lines 89-94: the inner loop over the pins of one sample. -/
def print_pins (buf : List Nat) (pin_count sample : Nat) : List Ev :=
  (List.range pin_count).flatMap fun pin =>
    [Ev.printf (if level buf pin sample pin_count then "1" else "0") [],
     Ev.printf "," []]

/-- Lines 98-101: the LED toggling of one sample. -/
def blink (sample : Nat) : List Ev :=
  if sample % 5000 = 0 then [Ev.gpio_put LED_PIN true]
  else if sample % 5000 = 2500 then [Ev.gpio_put LED_PIN false]
  else []

/-- Lines 89-103: one iteration of the outer loop. -/
def print_sample (buf : List Nat) (pin_count sample : Nat) : List Ev :=
  print_pins buf pin_count sample ++ blink sample ++ [Ev.printf "\n" []]

/-- The function `print_capture_buf_csv(buf, pin_base, pin_count, n_samples)`:
the outer loop over samples `0 .. n_samples - 1`.  The counters `sample` and
`pin` are `int`s compared with unsigned bounds; they run over the naturals
below the bound, and enter `bit_index` through 32-bit unsigned arithmetic.
`pin_base` is not used by the function. -/
def print_capture_buf_csv (buf : List Nat) (pin_base pin_count n_samples : Nat) :
    List Ev :=
  (List.range n_samples).flatMap fun sample => print_sample buf pin_count sample

/-! ## The specification's view of the decoder -/

/-- Specification, section 4.2: `bit_location(pin, sample, pin_count)` is the
pair of the word `(pin + sample*pin_count) / 32` and the offset
`(pin + sample*pin_count) mod 32`, over the integers. -/
def spec_bit_location (pin sample pin_count : Nat) : Nat × Nat :=
  ((pin + sample * pin_count) / 32, (pin + sample * pin_count) % 32)

/-- Whether the bit at `spec_bit_location` is set in the buffer. -/
def spec_bit (buf : List Nat) (pin sample pin_count : Nat) : Bool :=
  (buf.getD (spec_bit_location pin sample pin_count).1 0).testBit
    (spec_bit_location pin sample pin_count).2

/-- One rendered row of a bit matrix. -/
def render_row (b : Nat → Nat → Bool) (pin_count sample : Nat) : List Char :=
  ((List.range pin_count).flatMap fun pin =>
    [if b sample pin then '1' else '0', ',']) ++ ['\n']

/-- The rendering of a bit matrix the specification prescribes: for each sample
in order, for each pin in order, `"1"` or `"0"` followed by `","`, and a
`"\n"` after the last pin. -/
def render_rows (b : Nat → Nat → Bool) (pin_count n_samples : Nat) : List Char :=
  (List.range n_samples).flatMap fun sample =>
    ((List.range pin_count).flatMap fun pin =>
      [if b sample pin then '1' else '0', ',']) ++ ['\n']

/-- The text the specification prescribes for a buffer. -/
def spec_csv (buf : List Nat) (pin_count n_samples : Nat) : List Char :=
  render_rows (fun sample pin => spec_bit buf pin sample pin_count) pin_count n_samples

/-- Specification, section 8.1: a buffer is filled by the inverse of
`bit_location` from the bit matrix `b` when, for every sample and pin, the bit
at `bit_location(pin, sample, pin_count)` is `b sample pin`. -/
def filled_from (buf : List Nat) (b : Nat → Nat → Bool) (pin_count sample_count : Nat) : Prop :=
  ∀ sample, sample < sample_count → ∀ pin, pin < pin_count →
    spec_bit buf pin sample pin_count = b sample pin

instance (buf : List Nat) (b : Nat → Nat → Bool) (pin_count sample_count : Nat) :
    Decidable (filled_from buf b pin_count sample_count) := by
  unfold filled_from
  infer_instance

/-- The word whose bit `k` is the `k`-th entry of the list. -/
def pack_bits : List Bool → Nat
  | [] => 0
  | b :: bs => b.toNat + 2 * pack_bits bs

/-- Word `w` of the buffer that stores `b sample pin` at global bit index
`pin + sample * pin_count`, with the unused bits of the last word cleared. -/
def fill_word (b : Nat → Nat → Bool) (pin_count sample_count w : Nat) : Nat :=
  pack_bits ((List.range 32).map fun k =>
    decide (32 * w + k < pin_count * sample_count)
      && b ((32 * w + k) / pin_count) ((32 * w + k) % pin_count))

/-- The inverse of `bit_location`: the buffer of `ceil(pin_count*sample_count/32)`
words filled from the bit matrix `b`. -/
def fill_buffer (b : Nat → Nat → Bool) (pin_count sample_count : Nat) : List Nat :=
  (List.range ((pin_count * sample_count + 31) / 32)).map (fill_word b pin_count sample_count)

/-- The bit matrix of the specification's end-to-end scenario. -/
def scenario_bits (sample pin : Nat) : Bool :=
  ([[true, false], [true, true], [false, true]].getD sample []).getD pin false

/-! ## Buffer sizing in `main` (source lines 243 and 260) -/

/-- Line 260: `(CAPTURE_PIN_COUNT * CAPTURE_N_SAMPLES + 31) / 32`, the transfer
count handed to `logic_analyser_arm`, in 32-bit unsigned arithmetic. -/
def capture_size_words (pin_count n_samples : Nat) : Nat :=
  ((pin_count * n_samples) % UINT_MOD + 31) % UINT_MOD / 32

/-- Line 243: `uint32_t capture_buf_memory_size =
(CAPTURE_PIN_COUNT * CAPTURE_N_SAMPLES + 31) / 32 * sizeof(uint32_t);`. -/
def capture_buf_memory_size (pin_count n_samples : Nat) : Nat :=
  (capture_size_words pin_count n_samples * 4) % UINT_MOD

/-- Specification, section 4.2:
`required_words(pin_count, sample_count) = ceil(pin_count * sample_count / 32)`,
the ceiling of a rational quotient. -/
def required_words (pin_count sample_count : Nat) : Nat :=
  Nat.ceil (((pin_count * sample_count : Nat) : ℚ) / 32)

/-! ## Configuration globals and `read_user_input` (source lines 31-36, 107-217) -/

/-- The global configuration variables of lines 31-36. -/
structure Config where
  CAPTURE_PIN_BASE : Nat
  CAPTURE_PIN_COUNT : Nat
  CAPTURE_N_SAMPLES : Nat
  FREQ_DIV : FloatVal
  FREQUENCY : Nat
  TRIGGER : Bool
  deriving DecidableEq, Repr

/-- The initialisers of lines 31-36. -/
def default_config : Config :=
  { CAPTURE_PIN_BASE := 17
    CAPTURE_PIN_COUNT := 2
    CAPTURE_N_SAMPLES := 200000
    FREQ_DIV := FloatVal.lit 125
    FREQUENCY := 1000000
    TRIGGER := false }

/-- Line 108: `const int BUFFER_MAX = 11;`. -/
def BUFFER_MAX : Nat := 11

/-- The libc predicate `isdigit` on a character. -/
def isdigit (c : Char) : Bool :=
  decide ('0'.toNat ≤ c.toNat ∧ c.toNat ≤ '9'.toNat)

/-- The libc predicate `isspace` in the C locale: space, or `\t` to `\r`. -/
def isspace (c : Char) : Bool :=
  decide (c.toNat = 32 ∨ (9 ≤ c.toNat ∧ c.toNat ≤ 13))

/-- The value of the longest prefix of decimal digits, accumulated from `acc`. -/
def digits_value : Nat → List Char → Nat
  | acc, [] => acc
  | acc, c :: cs =>
    if isdigit c then digits_value (acc * 10 + (c.toNat - '0'.toNat)) cs else acc

/-- The libc call `strtol(s, NULL, 10)` on a 32-bit `long`: leading white space
is skipped, an optional sign is read, the decimal digits that follow are
converted, and a value out of range saturates at `LONG_MIN` or `LONG_MAX`. -/
def strtol : List Char → Int
  | [] => 0
  | c :: cs =>
    if isspace c then strtol cs
    else if c = '-' then max LONG_MIN (-(digits_value 0 cs : Int))
    else if c = '+' then min LONG_MAX (digits_value 0 cs : Int)
    else min LONG_MAX (digits_value 0 (c :: cs) : Int)

/-- Conversion of a signed 32-bit value to `uint`. -/
def to_uint (v : Int) : Nat :=
  (v % (UINT_MOD : Int)).toNat

/-- Read of `buffer[i]`: the line buffer is cleared to NUL before each line, so
positions after the stored characters hold NUL. -/
def buffer_at (buffer : List Char) (i : Nat) : Char :=
  buffer.getD i (Char.ofNat 0)

/-- Lines 128-215: the command dispatch on the collected line.  `hz` is the
value of `clock_get_hz(clk_sys)`.  The result is the new configuration, the
messages printed, and whether the command loop is left (`break` at line 204). -/
def dispatch_command (hz : Nat) (buffer : List Char) (st : Config) :
    Config × List Ev × Bool :=
  if buffer_at buffer 0 = 'p' then
    let pin : Int :=
      if isdigit (buffer_at buffer 1) then
        (if strtol (buffer.drop 1) > 28 then -1 else strtol (buffer.drop 1))
      else -1
    if pin = -1 then (st, [Ev.printf "Pin number is not valid\n" []], false)
    else ({ st with CAPTURE_PIN_BASE := to_uint pin },
          [Ev.printf "Start pin is %d\n" [Arg.int pin]], false)
  else if buffer_at buffer 0 = 'n' then
    let number : Int :=
      if isdigit (buffer_at buffer 1) then
        (if strtol (buffer.drop 1) > 28 then -1 else strtol (buffer.drop 1))
      else -1
    if number = -1 then (st, [Ev.printf "Number of pins is not valid\n" []], false)
    else ({ st with CAPTURE_PIN_COUNT := to_uint number },
          [Ev.printf "Total pins is %d\n" [Arg.int number]], false)
  else if buffer_at buffer 0 = 'f' then
    let freq : Nat :=
      if isdigit (buffer_at buffer 1) then
        (if to_uint (strtol (buffer.drop 1)) > hz then 0 else to_uint (strtol (buffer.drop 1)))
      else 0
    if freq < 0 then (st, [Ev.printf "Frequency is not valid\n" []], false)
    else
      let div := FloatVal.div (FloatVal.of_uint hz) (FloatVal.of_uint freq)
      ({ st with FREQUENCY := freq, FREQ_DIV := div },
       [Ev.printf "Frequency is %d div is %f\n" [Arg.uint freq, Arg.float div]], false)
  else if buffer_at buffer 0 = 't' then
    let t : Int :=
      if buffer_at buffer 1 = 't' ∨ buffer_at buffer 1 = '1' then 1
      else if buffer_at buffer 1 = 'f' ∨ buffer_at buffer 1 = '0' then 0
      else -1
    if t < 0 then (st, [Ev.printf "Trigger value is not valid\n" []], false)
    else ({ st with TRIGGER := decide (t ≠ 0) },
          [Ev.printf "Trigger set to %d\n" [Arg.int (if t ≠ 0 then 1 else 0)]], false)
  else if buffer_at buffer 0 = 's' then
    let number : Int :=
      if isdigit (buffer_at buffer 1) then
        (if strtol (buffer.drop 1) < 0 ∨ strtol (buffer.drop 1) > 500000 then -1
         else strtol (buffer.drop 1))
      else -1
    if number = -1 then (st, [Ev.printf "Sample number is not valid\n" []], false)
    else ({ st with CAPTURE_N_SAMPLES := to_uint number },
          [Ev.printf "Sample number is %d\n" [Arg.int number]], false)
  else if buffer_at buffer 0 = 'g' then (st, [], true)
  else
    (st,
     [Ev.printf "Unknown command\n" [],
      Ev.printf "p# - Set the first pin to receive capture data\n" [],
      Ev.printf "n# - Set how many pins to receive capture data\n" [],
      Ev.printf "f# - Set the freqency to capture data at in Hz\n" [],
      Ev.printf "t(1)(0) - Set the trigger to high or low\n" [],
      Ev.printf "    Trigger happens off first pin\n" [],
      Ev.printf "s# - Set how many samples to capture\n" [],
      Ev.printf "g - Go!\n" []],
     false)

/-- The result of `read_user_input`: the configuration in force when the
function returns, the input not yet consumed, and the events performed. -/
structure ReadResult where
  config : Config
  rest : List (Option Char)
  events : List Ev
  deriving DecidableEq, Repr

/-- The function `read_user_input()` (lines 107-217) on the stream of results of
`getchar_timeout_us`, where `none` is a timeout (`-1`).  `buffer` is the line
collected so far (`bufpos` is its length).  Each stream element is one pass
through the inner loop of lines 116-125; a complete line is dispatched and,
unless the command was `g`, a new line is begun with a cleared buffer.  When
the stream ends before a `g` command the C function keeps waiting and never
returns: the result is `none`. -/
def read_user_input_from (hz : Nat) :
    List (Option Char) → List Char → Config → List Ev → Option ReadResult
  | [], _, _, _ => none
  | none :: rest, buffer, st, evs => read_user_input_from hz rest buffer st evs
  | some c :: rest, buffer, st, evs =>
    if c = '\r' ∨ c = '\n' then
      let r := dispatch_command hz buffer st
      if r.2.2 then some ⟨r.1, rest, evs ++ [Ev.printf "\n" []] ++ r.2.1⟩
      else read_user_input_from hz rest [] r.1 (evs ++ [Ev.printf "\n" []] ++ r.2.1)
    else if buffer.length + 1 ≥ BUFFER_MAX then
      let r := dispatch_command hz (buffer ++ [c]) st
      let evs1 := evs ++ [Ev.printf "%c" [Arg.int c.toNat], Ev.printf "\n" []] ++ r.2.1
      if r.2.2 then some ⟨r.1, rest, evs1⟩
      else read_user_input_from hz rest [] r.1 evs1
    else
      read_user_input_from hz rest (buffer ++ [c]) st (evs ++ [Ev.printf "%c" [Arg.int c.toNat]])

/-- The function `read_user_input()` entered with the current configuration. -/
def read_user_input (hz : Nat) (input : List (Option Char)) (st : Config) :
    Option ReadResult :=
  read_user_input_from hz input [] st []

/-- The stream of `getchar_timeout_us` results of typed text, without timeouts. -/
def typed (s : String) : List (Option Char) :=
  s.toList.map some

/-- The bounds that the validation of `read_user_input` enforces on each field. -/
def Config.in_range (st : Config) : Prop :=
  st.CAPTURE_PIN_BASE ≤ 28 ∧ st.CAPTURE_PIN_COUNT ≤ 28 ∧ st.CAPTURE_N_SAMPLES ≤ 500000

instance (st : Config) : Decidable st.in_range := by
  unfold Config.in_range
  infer_instance

/-- Specification, section 3: the invariants of a capture configuration. -/
def Config.spec_invariant (st : Config) : Prop :=
  st.CAPTURE_PIN_BASE ≤ 28 ∧ 1 ≤ st.CAPTURE_PIN_COUNT ∧
  st.CAPTURE_PIN_BASE + st.CAPTURE_PIN_COUNT - 1 ≤ 28 ∧ st.CAPTURE_N_SAMPLES ≤ 500000

instance (st : Config) : Decidable st.spec_invariant := by
  unfold Config.spec_invariant
  infer_instance

/-- Specification, section 6, as the claim on rejection spells it out: the
argument of a command line is invalid when `p` or `n` is not followed by a
digit or carries a value above 28, `s` is not followed by a digit or carries a
value above 500000, `f` is not followed by a digit or carries a value above the
system clock frequency, or `t` is followed by none of `t`, `1`, `f`, `0`. -/
def invalid_argument (hz : Nat) (buffer : List Char) : Prop :=
  ((buffer_at buffer 0 = 'p' ∨ buffer_at buffer 0 = 'n') ∧
    (isdigit (buffer_at buffer 1) = false ∨ 28 < digits_value 0 (buffer.drop 1))) ∨
  (buffer_at buffer 0 = 's' ∧
    (isdigit (buffer_at buffer 1) = false ∨ 500000 < digits_value 0 (buffer.drop 1))) ∨
  (buffer_at buffer 0 = 'f' ∧
    (isdigit (buffer_at buffer 1) = false ∨ hz < digits_value 0 (buffer.drop 1))) ∨
  (buffer_at buffer 0 = 't' ∧
    buffer_at buffer 1 ≠ 't' ∧ buffer_at buffer 1 ≠ '1' ∧
    buffer_at buffer 1 ≠ 'f' ∧ buffer_at buffer 1 ≠ '0')

instance (hz : Nat) (buffer : List Char) : Decidable (invalid_argument hz buffer) := by
  unfold invalid_argument
  infer_instance

/-! ## `logic_analyser_init`, `logic_analyser_arm` and `main` -/

/-- Lines 57-62: the state-machine configuration built in `logic_analyser_init`;
`sm_config_set_in_shift(&c, true, true, 32)` is shift right, autopush, push
threshold 32. -/
def capture_sm_config (pin_base : Nat) (div : FloatVal) (offset : Nat) : SmConfig :=
  { in_base := pin_base
    wrap_target := offset
    wrap_top := offset
    clkdiv := div
    shift_right := true
    autopush := true
    push_threshold := 32
    fifo_join_rx := true }

/-- The function `logic_analyser_init(pio, sm, pin_base, pin_count, div)` (lines
42-64): the calls it makes.  `offset` is the value returned by
`pio_add_program`.  What the function stores in the globals `capture_prog_2`
and `offset` (lines 51 and 53) is `logic_analyser_init_globals`. -/
def logic_analyser_init (pin_base pin_count : Nat) (div : FloatVal) (offset : Nat) :
    List Ev :=
  [Ev.pio_add_program (Instr.in_pins pin_count) 1 offset,
   Ev.pio_sm_init offset (capture_sm_config pin_base div offset)]

/-- The globals `uint offset` and `struct pio_program *capture_prog_2` (lines
39-40). -/
structure ProgramGlobals where
  offset : Nat
  capture_prog_2 : ProgramPtr
  deriving DecidableEq, Repr

/-- Lines 51 and 53: the globals as a call of `logic_analyser_init` leaves them
to its caller.  `offset` holds the value returned by `pio_add_program`.
`capture_prog_2` holds `&capture_prog`, the address of a local of the call
(line 46); the call has returned, so the pointer is dangling. -/
def logic_analyser_init_globals (offset : Nat) : ProgramGlobals :=
  { offset := offset
    capture_prog_2 := ProgramPtr.dangling }

/-- The function `logic_analyser_arm(pio, sm, dma_chan, capture_buf,
capture_size_words, trigger_pin, trigger_level)` (lines 66-85). -/
def logic_analyser_arm (capture_buf capture_size_words trigger_pin : Nat)
    (trigger_level : Bool) : List Ev :=
  [Ev.pio_sm_set_enabled false,
   Ev.pio_sm_clear_fifos,
   Ev.dma_channel_configure
     { read_increment := false
       write_increment := true
       dreq_pio_rx := true
       write_addr := capture_buf
       read_addr_rxf := true
       transfer_count := capture_size_words
       start := true },
   Ev.pio_sm_exec (Instr.wait_gpio trigger_level trigger_pin),
   Ev.pio_sm_set_enabled true]

/-- What the environment supplies to one iteration of the loop of `main`: the
pointer returned by `malloc` (`0` is `NULL`), the offset returned by
`pio_add_program`, and the words found behind `capture_buf` once the DMA
transfer has finished. -/
structure CycleEnv where
  malloc_result : Nat
  program_offset : Nat
  captured : List Nat
  deriving DecidableEq, Repr

/-- Lines 243-270: the part of one iteration of the loop of `main` that follows
`read_user_input`, for the configuration `st` it left.  Line 268,
`pio_remove_program(pio, capture_prog_2, offset)`, passes the two globals as
the iteration's `logic_analyser_init` left them. -/
def capture_cycle (hz : Nat) (env : CycleEnv) (st : Config) : List Ev :=
  [Ev.malloc (capture_buf_memory_size st.CAPTURE_PIN_COUNT st.CAPTURE_N_SAMPLES)
     env.malloc_result]
  ++ (if env.malloc_result = 0 then
        [Ev.printf "Error allocating capture buffer size %d\n"
          [Arg.uint (capture_buf_memory_size st.CAPTURE_PIN_COUNT st.CAPTURE_N_SAMPLES)]]
      else [])
  ++ logic_analyser_init st.CAPTURE_PIN_BASE st.CAPTURE_PIN_COUNT st.FREQ_DIV
       env.program_offset
  ++ [Ev.printf "Clock speed is   %d\n" [Arg.uint hz],
      Ev.printf "Capture speed is %f.2\n"
        [Arg.float (FloatVal.div (FloatVal.of_uint hz) st.FREQ_DIV)],
      Ev.printf "Arming trigger\n" [],
      Ev.gpio_put LED_PIN true]
  ++ logic_analyser_arm env.malloc_result
       (capture_size_words st.CAPTURE_PIN_COUNT st.CAPTURE_N_SAMPLES)
       st.CAPTURE_PIN_BASE st.TRIGGER
  ++ [Ev.dma_channel_wait_for_finish_blocking,
      Ev.gpio_put LED_PIN false,
      Ev.call_print_capture_buf_csv env.malloc_result st.CAPTURE_PIN_BASE
        st.CAPTURE_PIN_COUNT st.CAPTURE_N_SAMPLES]
  ++ print_capture_buf_csv env.captured st.CAPTURE_PIN_BASE st.CAPTURE_PIN_COUNT
       st.CAPTURE_N_SAMPLES
  ++ [Ev.pio_remove_program (logic_analyser_init_globals env.program_offset).capture_prog_2
        (logic_analyser_init_globals env.program_offset).offset,
      Ev.free env.malloc_result]

/-- Lines 237-270: one iteration of the `while (true)` loop of `main`, started
with configuration `st` on the input stream `input`.  The result is `none` when
`read_user_input` never returns. -/
def main_cycle (hz : Nat) (env : CycleEnv) (input : List (Option Char)) (st : Config) :
    Option ReadResult :=
  match read_user_input hz input st with
  | none => none
  | some r =>
    some ⟨r.config, r.rest,
      [Ev.gpio_put LED_PIN true, Ev.sleep_ms 1000, Ev.gpio_put LED_PIN false]
        ++ r.events ++ capture_cycle hz env r.config⟩

/-! ## The sampling unit that runs the installed program -/

/-- Modelled from the spec: the sampling unit (a PIO state machine) is hardware
and has no source in the repository.  Its state is the 32-bit input shift
register, the count of bits shifted in since the last push, and the words
pushed to the RX FIFO so far, oldest first. -/
structure SmState where
  isr : Nat
  isr_count : Nat
  rx_fifo : List Nat
  deriving DecidableEq, Repr

/-- Modelled from the spec: one execution of `in pins, bit_count` by the
sampling unit, which the repository only configures.  The `bit_count` input
lines starting at `in_base` are shifted into the 32-bit register, from the top
when shifting right ("right-shift-in"); the shift count grows by `bit_count`
and saturates at 32; with autopush, once the count has reached the push
threshold ("automatic push once 32 bits have accumulated") the register is
pushed to the FIFO and cleared together with the count.  `gpio` holds the
levels of the input lines, line `i` at bit `i`. -/
def sm_exec_in (c : SmConfig) (bit_count gpio : Nat) (s : SmState) : SmState :=
  let data := (gpio >>> c.in_base) % 2 ^ bit_count
  let isr :=
    if c.shift_right then (s.isr >>> bit_count) ||| (data <<< (32 - bit_count))
    else ((s.isr <<< bit_count) ||| data) % 2 ^ 32
  let count := min 32 (s.isr_count + bit_count)
  if c.autopush = true ∧ c.push_threshold ≤ count then
    { isr := 0, isr_count := 0, rx_fifo := s.rx_fifo ++ [isr] }
  else
    { isr := isr, isr_count := count, rx_fifo := s.rx_fifo }

/-- Modelled from the spec: the sampling unit executing one instruction of the
installed program on the current line levels; `wait` only delays execution. -/
def sm_exec (c : SmConfig) (gpio : Nat) (s : SmState) : Instr → SmState
  | Instr.in_pins bit_count => sm_exec_in c bit_count gpio s
  | Instr.wait_gpio _ _ => s

/-- The program and configuration that a sequence of events installs:
the instruction of the last `pio_add_program` and the configuration of the
last `pio_sm_init`. -/
def installed_program : List Ev → Option Instr × Option SmConfig
  | [] => (none, none)
  | Ev.pio_add_program instr _ _ :: evs =>
    (match (installed_program evs).1 with
      | some i => some i
      | none => some instr,
     (installed_program evs).2)
  | Ev.pio_sm_init _ c :: evs =>
    ((installed_program evs).1,
     match (installed_program evs).2 with
      | some c2 => some c2
      | none => some c)
  | _ :: evs => installed_program evs

/-- Modelled from the spec: the sampling unit looping over the one-instruction
program `instr` (wrap target and wrap top are the same address) on the stream
`samples` of line levels, one element per execution, starting from a cleared
register and FIFO (as `logic_analyser_arm` leaves them). -/
def sm_run (c : SmConfig) (instr : Instr) (samples : List Nat) : SmState :=
  samples.foldl (fun s gpio => sm_exec c gpio s instr) ⟨0, 0, []⟩

/-- Modelled from the spec: the words the sampling unit pushes when it runs the
program installed by `logic_analyser_init` on the stream `samples`.  These are
the words the DMA channel stores in the capture buffer, in order. -/
def sampled_words (pin_base pin_count : Nat) (div : FloatVal) (offset : Nat)
    (samples : List Nat) : List Nat :=
  match installed_program (logic_analyser_init pin_base pin_count div offset) with
  | (some instr, some c) => (sm_run c instr samples).rx_fifo
  | _ => []

/-- The level of pin `pin` of the capture (line `pin_base + pin`) in sample
number `sample` of the stream. -/
def sampled_level (pin_base : Nat) (samples : List Nat) (pin sample : Nat) : Bool :=
  (samples.getD sample 0).testBit (pin_base + pin)

/-! ## Further notions of the specification -/

/-- The number a string of decimal digits denotes. -/
def decimal_value (ds : List Char) : Nat :=
  ds.foldl (fun acc c => acc * 10 + (c.toNat - '0'.toNat)) 0

/-- The buffer bit with global index `i`: bit `i mod 32` of word `i / 32`. -/
def buffer_bit (buf : List Nat) (i : Nat) : Bool :=
  (buf.getD (i / 32) 0).testBit (i % 32)

/-! ## The loop of `main` and the program slot -/

/-- Lines 236-271: the `while (true)` loop of `main`, observed for as many
iterations as `envs` supplies environments.  An iteration starts from the
configuration and the unread input that the previous one left; the loop is
observed no further once `read_user_input` does not return. -/
def main_loop (hz : Nat) : List CycleEnv → List (Option Char) → Config → List Ev
  | [], _, _ => []
  | env :: envs, input, st =>
    match main_cycle hz env input st with
    | none => []
    | some r => r.events ++ main_loop hz envs r.rest r.config

/-- Whether an event installs a program (`pio_add_program`). -/
def Ev.is_install : Ev → Bool
  | Ev.pio_add_program _ _ _ => true
  | _ => false

/-- Whether an event releases a program (`pio_remove_program`). -/
def Ev.is_release : Ev → Bool
  | Ev.pio_remove_program _ _ => true
  | _ => false

/-- Whether an event installs or releases a program. -/
def Ev.touches_slot (e : Ev) : Bool :=
  e.is_install || e.is_release

/-- The length that `pio_remove_program` finds in `program->length`: the length
stored in a live program; for a dangling pointer whatever the dead object
holds by then, which the program does not determine (`stale_length`). -/
def ProgramPtr.read_length (stale_length : Nat) : ProgramPtr → Nat
  | ProgramPtr.live length => length
  | ProgramPtr.dangling => stale_length

/-- Modelled from the spec: `pio_add_program` and `pio_remove_program` are SDK
functions with no source in the repository.  Specification, sections 4.1 and
5: `release` removes the installed program from its slot, the discipline is
"install, use, release", and no two installs may be outstanding.  The slot is
free (`none`) or holds the offset and length of the one outstanding install.
`pio_remove_program(program, offset)` frees `program->length` instructions at
`offset`, so it releases the outstanding install when offset and length read
are those of the install.  An install into an occupied slot, and a release
that is not that of the outstanding install, break the discipline (`none` as
result). -/
def slot_step (stale_length : Nat) (slot : Option (Nat × Nat)) :
    Ev → Option (Option (Nat × Nat))
  | Ev.pio_add_program _ length offset =>
    match slot with
    | none => some (some (offset, length))
    | some _ => none
  | Ev.pio_remove_program program offset =>
    match slot with
    | none => none
    | some held =>
      if held = (offset, program.read_length stale_length) then some none else none
  | _ => some slot

/-- The slot after a sequence of events, when the discipline held throughout. -/
def slot_run (stale_length : Nat) :
    List Ev → Option (Nat × Nat) → Option (Option (Nat × Nat))
  | [], slot => some slot
  | e :: evs, slot =>
    match slot_step stale_length slot e with
    | none => none
    | some next => slot_run stale_length evs next

/-- Specification, as the claim on the command frame spells it out: what a
line whose first character is `letter` may change in going from configuration
`st` to `st1`. -/
def frame_ok (letter : Char) (st st1 : Config) : Prop :=
  if letter = 'p' then st1 = { st with CAPTURE_PIN_BASE := st1.CAPTURE_PIN_BASE }
  else if letter = 'n' then st1 = { st with CAPTURE_PIN_COUNT := st1.CAPTURE_PIN_COUNT }
  else if letter = 's' then st1 = { st with CAPTURE_N_SAMPLES := st1.CAPTURE_N_SAMPLES }
  else if letter = 't' then st1 = { st with TRIGGER := st1.TRIGGER }
  else if letter = 'f' then
    st1 = { st with FREQUENCY := st1.FREQUENCY, FREQ_DIV := st1.FREQ_DIV }
  else st1 = st

instance (letter : Char) (st st1 : Config) : Decidable (frame_ok letter st st1) := by
  unfold frame_ok
  infer_instance

/-! ## The character-collection loop of `read_user_input` (source lines 109-125) -/

/-- The state of the loop of lines 116-125: the array `char buffer[BUFFER_MAX+1]`,
the index `bufpos`, and the indices of `buffer` that have been written, in
order.  (An assignment to `buffer[i]` with `i` outside the array is recorded in
`writes` but leaves the list as it is.) -/
structure LineState where
  buffer : List Char
  bufpos : Nat
  writes : List Nat
  deriving DecidableEq, Repr

/-- Lines 112-113: `memset(buffer, 0, BUFFER_MAX+1); int bufpos = 0;`. -/
def LineState.init : LineState :=
  { buffer := List.replicate (BUFFER_MAX + 1) (Char.ofNat 0)
    bufpos := 0
    writes := [] }

/-- Lines 116-125: the loop that collects one line from the stream of results
of `getchar_timeout_us` (`none` is a timeout).  The result is the state when the
loop is left, with the input that remains; the remaining input is `none` when
the stream ends while the loop is still waiting. -/
def collect_line : List (Option Char) → LineState → LineState × Option (List (Option Char))
  | [], s => (s, none)
  | none :: rest, s => collect_line rest s
  | some c :: rest, s =>
    if c = '\r' ∨ c = '\n' then (s, some rest)
    else if s.bufpos + 1 ≥ BUFFER_MAX then
      ({ buffer := s.buffer.set s.bufpos c
         bufpos := s.bufpos + 1
         writes := s.writes ++ [s.bufpos] }, some rest)
    else
      collect_line rest
        { buffer := s.buffer.set s.bufpos c
          bufpos := s.bufpos + 1
          writes := s.writes ++ [s.bufpos] }

/-- What the loop of lines 116-125 maintains: `bufpos` is within the array, the
array has its 12 bytes, the indices written are `0 .. bufpos - 1` in order, and
every byte from `bufpos` on is still NUL. -/
def LineState.ok (s : LineState) : Prop :=
  s.bufpos ≤ BUFFER_MAX ∧ s.buffer.length = BUFFER_MAX + 1 ∧
  s.writes = List.range s.bufpos ∧
  ∀ i, s.bufpos ≤ i → s.buffer.getD i (Char.ofNat 0) = Char.ofNat 0

/-- The line buffer as a list: the stored characters padded with NUL to the 12
bytes of the array. -/
def padded (buffer : List Char) : List Char :=
  buffer ++ List.replicate (BUFFER_MAX + 1 - buffer.length) (Char.ofNat 0)

/-! ## Lemmas on the decoder -/

theorem stdout_text_append (xs ys : List Ev) :
    stdout_text (xs ++ ys) = stdout_text xs ++ stdout_text ys := by
  simp [stdout_text]

theorem stdout_text_blink (sample : Nat) : stdout_text (blink sample) = [] := by
  unfold blink
  split_ifs <;> simp [stdout_text, Ev.text]

theorem stdout_text_print_pins (buf : List Nat) (pin_count sample : Nat) :
    stdout_text (print_pins buf pin_count sample)
      = (List.range pin_count).flatMap fun pin =>
          [if level buf pin sample pin_count then '1' else '0', ','] := by
  unfold print_pins stdout_text
  induction List.range pin_count with
  | nil => rfl
  | cons pin rest ih =>
    simp only [List.flatMap_cons, List.flatMap_append, ih]
    cases level buf pin sample pin_count <;> rfl

theorem stdout_text_print_sample (buf : List Nat) (pin_count sample : Nat) :
    stdout_text (print_sample buf pin_count sample)
      = render_row (fun s p => level buf p s pin_count) pin_count sample := by
  unfold print_sample render_row
  rw [stdout_text_append, stdout_text_append, stdout_text_blink, stdout_text_print_pins]
  simp [stdout_text, Ev.text]

theorem render_rows_eq (b : Nat → Nat → Bool) (pin_count n_samples : Nat) :
    render_rows b pin_count n_samples
      = (List.range n_samples).flatMap fun sample => render_row b pin_count sample := rfl

/-- The text printed by the decoder is the rendering of the levels it reads. -/
theorem stdout_text_print_capture_buf_csv (buf : List Nat) (pin_base pin_count n_samples : Nat) :
    stdout_text (print_capture_buf_csv buf pin_base pin_count n_samples)
      = render_rows (fun s p => level buf p s pin_count) pin_count n_samples := by
  rw [render_rows_eq]
  unfold print_capture_buf_csv
  induction List.range n_samples with
  | nil => rfl
  | cons s rest ih =>
    rw [List.flatMap_cons, List.flatMap_cons, stdout_text_append, ih, stdout_text_print_sample]

theorem render_rows_succ (b : Nat → Nat → Bool) (pin_count k : Nat) :
    render_rows b pin_count (k + 1) = render_rows b pin_count k ++ render_row b pin_count k := by
  simp [render_rows_eq, List.range_succ, List.flatMap_append]

theorem render_row_length (b : Nat → Nat → Bool) (pin_count sample : Nat) :
    (render_row b pin_count sample).length = 2 * pin_count + 1 := by
  unfold render_row
  have h : ∀ l : List Nat,
      (l.flatMap fun pin => [if b sample pin then '1' else '0', ',']).length = 2 * l.length := by
    intro l
    induction l with
    | nil => rfl
    | cons a l ih => simp only [List.flatMap_cons, List.length_append, ih, List.length_cons,
        List.length_nil]; omega
  simp [h]

theorem render_rows_length (b : Nat → Nat → Bool) (pin_count n_samples : Nat) :
    (render_rows b pin_count n_samples).length = n_samples * (2 * pin_count + 1) := by
  induction n_samples with
  | zero => simp [render_rows]
  | succ k ih => rw [render_rows_succ, List.length_append, ih, render_row_length]; ring

/-- Rows depend only on the entries inside the matrix. -/
theorem render_row_congr (b c : Nat → Nat → Bool) (pin_count sample : Nat)
    (h : ∀ p, p < pin_count → b sample p = c sample p) :
    render_row b pin_count sample = render_row c pin_count sample := by
  unfold render_row
  congr 1
  apply List.flatMap_congr
  intro p hp
  rw [h p (List.mem_range.mp hp)]

theorem render_rows_congr (b c : Nat → Nat → Bool) (pin_count n_samples : Nat)
    (h : ∀ s, s < n_samples → ∀ p, p < pin_count → b s p = c s p) :
    render_rows b pin_count n_samples = render_rows c pin_count n_samples := by
  rw [render_rows_eq, render_rows_eq]
  apply List.flatMap_congr
  intro s hs
  exact render_row_congr b c pin_count s (h s (List.mem_range.mp hs))

/-- The first character of a non-empty row is the token of pin 0. -/
theorem render_row_head (b : Nat → Nat → Bool) (pin_count sample : Nat) (h : 0 < pin_count) :
    (render_row b pin_count sample).head? = some (if b sample 0 then '1' else '0') := by
  obtain ⟨m, rfl⟩ := Nat.exists_eq_succ_of_ne_zero (Nat.pos_iff_ne_zero.mp h)
  simp [render_row, List.range_succ_eq_map]

/-- The masking expression of line 91 tests one bit of the word. -/
theorem level_eq_testBit (buf : List Nat) (pin sample pin_count : Nat) :
    level buf pin sample pin_count
      = (buf.getD (bit_index pin sample pin_count / 32) 0).testBit
          (bit_index pin sample pin_count % 32) := by
  unfold level
  rw [Nat.one_shiftLeft, Nat.and_two_pow]
  cases (buf.getD (bit_index pin sample pin_count / 32) 0).testBit
      (bit_index pin sample pin_count % 32) <;> simp

/-- Without wraparound the 32-bit index is the mathematical one. -/
theorem bit_index_eq (pin sample pin_count n_samples : Nat)
    (hp : pin < pin_count) (hs : sample < n_samples)
    (hfit : pin_count * n_samples ≤ 2 ^ 32) :
    bit_index pin sample pin_count = pin + sample * pin_count := by
  have h1 : pin + sample * pin_count < pin_count * n_samples := by
    calc pin + sample * pin_count < pin_count + sample * pin_count := by omega
      _ = (sample + 1) * pin_count := by ring
      _ ≤ n_samples * pin_count := Nat.mul_le_mul_right _ hs
      _ = pin_count * n_samples := Nat.mul_comm _ _
  have h2 : sample * pin_count < 2 ^ 32 := by omega
  unfold bit_index UINT_MOD
  rw [Nat.mod_eq_of_lt h2, Nat.mod_eq_of_lt (by omega)]

/-- A buffer whose first word is `a` and whose other words are zero. -/
theorem getD_cons_replicate_zero (a n i : Nat) :
    (a :: List.replicate n 0).getD i 0 = if i = 0 then a else 0 := by
  cases i with
  | zero => simp
  | succ j =>
    rw [List.getD_cons_succ, if_neg (Nat.succ_ne_zero j), List.getD_eq_getElem?_getD,
      List.getElem?_replicate]
    split <;> rfl

/-! ## C1: the text of `print_capture_buf_csv` -/

/-- C1 (amended): when the buffer holds `pin_count * n_samples` bits and that
product is at most `2 ^ 32`, the text emitted by `print_capture_buf_csv` is the
concatenation, for each sample in order, of the tokens `"1"`/`"0"` plus `","`
of each pin in order, read at bit `(pin + sample*pin_count) mod 32` of word
`(pin + sample*pin_count) / 32`, followed by `"\n"`; and for `pin_count = 2`,
`n_samples = 3`, buffer `[0b101101]` the text is `"1,0,\n1,1,\n0,1,\n"`. -/
theorem print_capture_buf_csv_text :
    (∀ (buf : List Nat) (pin_base pin_count n_samples : Nat),
      pin_count * n_samples ≤ 32 * buf.length →
      pin_count * n_samples ≤ 2 ^ 32 →
      stdout_text (print_capture_buf_csv buf pin_base pin_count n_samples)
        = spec_csv buf pin_count n_samples) ∧
    stdout_text (print_capture_buf_csv [0b101101] 17 2 3) = "1,0,\n1,1,\n0,1,\n".toList := by
  refine ⟨?_, by decide⟩
  intro buf pin_base pin_count n_samples _ hfit
  rw [stdout_text_print_capture_buf_csv, spec_csv]
  apply render_rows_congr
  intro s hs p hp
  rw [level_eq_testBit, bit_index_eq p s pin_count n_samples hp hs hfit]
  rfl

/-- C1 at the specification's scenario: the hypotheses hold for two pins, three
samples and the one-word buffer `0b101101`, and the text is the one listed. -/
theorem print_capture_buf_csv_text_witness :
    2 * 3 ≤ 32 * [0b101101].length ∧ 2 * 3 ≤ 2 ^ 32 ∧
    stdout_text (print_capture_buf_csv [0b101101] 17 2 3) = spec_csv [0b101101] 2 3 ∧
    spec_csv [0b101101] 2 3 = "1,0,\n1,1,\n0,1,\n".toList :=
  ⟨by decide, by decide,
   print_capture_buf_csv_text.1 [0b101101] 17 2 3 (by decide) (by decide), by decide⟩


/-- The index of pin 0 of sample `2 ^ 27` with 32 pins wraps to 0. -/
theorem bit_index_wraps : bit_index 0 (2 ^ 27) 32 = 0 := by
  unfold bit_index UINT_MOD
  norm_num

/-- C1 as stated fails once `pin_count * n_samples` exceeds `2 ^ 32`: with 32
pins and `2 ^ 27 + 1` samples the index of pin 0 of the last sample wraps to 0,
so the decoder prints bit 0 of word 0 where the claim names bit 0 of word
`2 ^ 27`; the buffer holds all `32 * (2 ^ 27 + 1)` bits. -/
theorem print_capture_buf_csv_text_wraps :
    32 * (2 ^ 27 + 1) ≤ 32 * (1 :: List.replicate (2 ^ 27) 0).length ∧
    stdout_text (print_capture_buf_csv (1 :: List.replicate (2 ^ 27) 0) 0 32 (2 ^ 27 + 1))
      ≠ spec_csv (1 :: List.replicate (2 ^ 27) 0) 32 (2 ^ 27 + 1) := by
  refine ⟨by rw [List.length_cons, List.length_replicate], fun h => ?_⟩
  rw [stdout_text_print_capture_buf_csv, spec_csv, render_rows_succ, render_rows_succ] at h
  have hrow := List.append_inj_right' h (by rw [render_row_length, render_row_length])
  have hhead := congrArg List.head? hrow
  rw [render_row_head _ _ _ (by decide), render_row_head _ _ _ (by decide)] at hhead
  have hl : level (1 :: List.replicate (2 ^ 27) 0) 0 (2 ^ 27) 32 = true := by
    rw [level_eq_testBit, getD_cons_replicate_zero, bit_index_wraps]
    decide
  have hs : spec_bit (1 :: List.replicate (2 ^ 27) 0) 0 (2 ^ 27) 32 = false := by
    unfold spec_bit spec_bit_location
    rw [getD_cons_replicate_zero]
    norm_num
  simp only [hl, hs] at hhead
  exact absurd hhead (by decide)

/-! ## C9: shape of the output -/

/-- C9: for every buffer, pin count and sample count the text emitted by
`print_capture_buf_csv` is exactly `n_samples` rows and nothing else, every row
being `pin_count` tokens `'0'`/`'1'` each followed by `','` and then `"\n"`;
its length is `n_samples * (2 * pin_count + 1)`. -/
theorem print_capture_buf_csv_shape (buf : List Nat) (pin_base pin_count n_samples : Nat) :
    (∃ rows : List (List Bool),
      rows.length = n_samples ∧ (∀ r ∈ rows, r.length = pin_count) ∧
      stdout_text (print_capture_buf_csv buf pin_base pin_count n_samples)
        = rows.flatMap fun r =>
            (r.flatMap fun bit => [if bit then '1' else '0', ',']) ++ ['\n']) ∧
    (stdout_text (print_capture_buf_csv buf pin_base pin_count n_samples)).length
      = n_samples * (2 * pin_count + 1) := by
  refine ⟨⟨(List.range n_samples).map fun s =>
      (List.range pin_count).map fun p => level buf p s pin_count, ?_, ?_, ?_⟩, ?_⟩
  · simp
  · intro r hr
    obtain ⟨s, _, rfl⟩ := List.mem_map.mp hr
    simp
  · rw [stdout_text_print_capture_buf_csv, render_rows_eq, List.flatMap_map]
    apply List.flatMap_congr
    intro s _
    rw [render_row, List.flatMap_map]
  · rw [stdout_text_print_capture_buf_csv, render_rows_length]

/-! ## C10: addressing -/

/-- C10 (amended): for pin 1, sample 2 and two pins the global bit index is 5
and the decoder reads word `5 / 32 = 0` at offset `5 mod 32 = 5`; the
specification's `bit_location` formula gives the same pair. -/
theorem bit_location_example :
    bit_index 1 2 2 = 5 ∧ (bit_index 1 2 2 / 32, bit_index 1 2 2 % 32) = (0, 5) ∧
    spec_bit_location 1 2 2 = (0, 5) := by
  decide

/-- C10 as stated fails: the location the decoder uses for pin 1 of sample 2
with two pins is not word 1, offset 0. -/
theorem bit_location_example_not_word_one :
    ¬ (bit_index 1 2 2 / 32 = 1 ∧ bit_index 1 2 2 % 32 = 0) ∧
    spec_bit_location 1 2 2 ≠ (1, 0) := by
  decide

/-! ## C2: round trip -/

theorem testBit_pack_bits (l : List Bool) (k : Nat) :
    (pack_bits l).testBit k = l.getD k false := by
  induction l generalizing k with
  | nil => simp [pack_bits]
  | cons b bs ih =>
    cases k with
    | zero =>
      rw [Nat.testBit_zero]
      cases b <;> simp [pack_bits, Nat.add_mod]
    | succ j =>
      rw [Nat.testBit_succ, List.getD_cons_succ, ← ih j]
      congr 1
      cases b <;> (simp [pack_bits]; try omega)

/-- The constructed buffer stores every entry of the matrix at its location. -/
theorem fill_buffer_filled (b : Nat → Nat → Bool) (pin_count sample_count : Nat) :
    filled_from (fill_buffer b pin_count sample_count) b pin_count sample_count := by
  intro s hs p hp
  have hlt : p + s * pin_count < pin_count * sample_count := by
    calc p + s * pin_count < pin_count + s * pin_count := by omega
      _ = (s + 1) * pin_count := by ring
      _ ≤ sample_count * pin_count := Nat.mul_le_mul_right _ hs
      _ = pin_count * sample_count := Nat.mul_comm _ _
  have hw : (p + s * pin_count) / 32 < (pin_count * sample_count + 31) / 32 := by omega
  have hk : (p + s * pin_count) % 32 < 32 := Nat.mod_lt _ (by decide)
  have hsplit : 32 * ((p + s * pin_count) / 32) + (p + s * pin_count) % 32
      = p + s * pin_count := Nat.div_add_mod _ 32
  have hdiv : (p + s * pin_count) / pin_count = s := by
    rw [Nat.add_mul_div_right _ _ (by omega), Nat.div_eq_of_lt hp, Nat.zero_add]
  have hmod : (p + s * pin_count) % pin_count = p := by
    rw [Nat.add_mul_mod_self_right, Nat.mod_eq_of_lt hp]
  unfold spec_bit spec_bit_location fill_buffer
  simp only [List.getD_eq_getElem?_getD, List.getElem?_map, List.getElem?_range hw,
    Option.map_some', Option.getD_some]
  unfold fill_word
  rw [testBit_pack_bits]
  simp only [List.getD_eq_getElem?_getD, List.getElem?_map, List.getElem?_range hk,
    Option.map_some', Option.getD_some, hsplit, hdiv, hmod, hlt, decide_True, Bool.true_and]

/-- C2 (amended): for `pin_count` in `[1, 32]`, any `sample_count` with
`pin_count * sample_count ≤ 2 ^ 32`, any bit matrix `b` and any buffer filled
from `b` by the inverse of `bit_location`, the rows printed by
`print_capture_buf_csv` are exactly the rendering of `b`: row `sample`, column
`pin` is `"1"` iff `b sample pin`. -/
theorem print_capture_buf_csv_round_trip (buf : List Nat) (b : Nat → Nat → Bool)
    (pin_base pin_count sample_count : Nat)
    (hpins : 1 ≤ pin_count ∧ pin_count ≤ 32)
    (hfit : pin_count * sample_count ≤ 2 ^ 32)
    (hfill : filled_from buf b pin_count sample_count) :
    stdout_text (print_capture_buf_csv buf pin_base pin_count sample_count)
      = render_rows b pin_count sample_count := by
  rw [stdout_text_print_capture_buf_csv]
  apply render_rows_congr
  intro s hs p hp
  rw [level_eq_testBit, bit_index_eq p s pin_count sample_count hp hs hfit]
  exact hfill s hs p hp

/-- C2 at the specification's scenario: the buffer built from the scenario's
bit matrix is the word `0b101101`, it is filled from that matrix, and decoding
it prints the matrix. -/
theorem print_capture_buf_csv_round_trip_witness :
    fill_buffer scenario_bits 2 3 = [0b101101] ∧
    (1 ≤ 2 ∧ 2 ≤ 32) ∧ 2 * 3 ≤ 2 ^ 32 ∧
    filled_from (fill_buffer scenario_bits 2 3) scenario_bits 2 3 ∧
    stdout_text (print_capture_buf_csv (fill_buffer scenario_bits 2 3) 17 2 3)
      = render_rows scenario_bits 2 3 ∧
    render_rows scenario_bits 2 3 = "1,0,\n1,1,\n0,1,\n".toList :=
  ⟨by decide, by decide, by decide, fill_buffer_filled scenario_bits 2 3,
   print_capture_buf_csv_round_trip (fill_buffer scenario_bits 2 3) scenario_bits 17 2 3
     (by decide) (by decide) (fill_buffer_filled scenario_bits 2 3),
   by decide⟩

/-- C2 as stated fails for large sample counts: with 32 pins and `2 ^ 27 + 1`
samples, the buffer filled from the matrix whose only set entry is pin 0 of
sample 0 decodes with pin 0 of sample `2 ^ 27` printed as `"1"`, because that
sample's bit index wraps to 0. -/
theorem print_capture_buf_csv_round_trip_wraps :
    (1 ≤ 32 ∧ 32 ≤ 32) ∧
    filled_from (1 :: List.replicate (2 ^ 27) 0)
      (fun s p => decide (s = 0 ∧ p = 0)) 32 (2 ^ 27 + 1) ∧
    stdout_text (print_capture_buf_csv (1 :: List.replicate (2 ^ 27) 0) 0 32 (2 ^ 27 + 1))
      ≠ render_rows (fun s p => decide (s = 0 ∧ p = 0)) 32 (2 ^ 27 + 1) := by
  refine ⟨by decide, ?_, fun h => ?_⟩
  · intro s _ p hp
    have h1 : (p + s * 32) / 32 = s := by omega
    have h2 : (p + s * 32) % 32 = p := by omega
    unfold spec_bit spec_bit_location
    simp only [h1, h2]
    rw [getD_cons_replicate_zero]
    by_cases hs0 : s = 0
    · have h3 := @Nat.testBit_two_pow 0 p
      simp only [pow_zero] at h3
      simp [hs0, h3, eq_comm]
    · simp [hs0]
  · rw [stdout_text_print_capture_buf_csv, render_rows_succ, render_rows_succ] at h
    have hrow := List.append_inj_right' h (by rw [render_row_length, render_row_length])
    have hhead := congrArg List.head? hrow
    rw [render_row_head _ _ _ (by decide), render_row_head _ _ _ (by decide)] at hhead
    have hl : level (1 :: List.replicate (2 ^ 27) 0) 0 (2 ^ 27) 32 = true := by
      rw [level_eq_testBit, getD_cons_replicate_zero, bit_index_wraps]
      decide
    have hb : decide ((2 ^ 27 : Nat) = 0 ∧ (0 : Nat) = 0) = false := by decide
    simp only [hl, hb] at hhead
    exact absurd hhead (by decide)

/-! ## C4: buffer sizing -/

/-- The ceiling of `x / 32` is `(x + 31) / 32` in truncating division. -/
theorem required_words_eq (pin_count sample_count : Nat) :
    required_words pin_count sample_count = (pin_count * sample_count + 31) / 32 := by
  unfold required_words
  generalize pin_count * sample_count = x
  apply le_antisymm
  · rw [Nat.ceil_le, div_le_iff₀ (by norm_num)]
    have h : x ≤ (x + 31) / 32 * 32 := by omega
    exact_mod_cast h
  · have h := Nat.le_ceil ((x : ℚ) / 32)
    rw [div_le_iff₀ (by norm_num)] at h
    have h' : x ≤ Nat.ceil ((x : ℚ) / 32) * 32 := by exact_mod_cast h
    omega

/-- C4: for `pin_count ≤ 28` and `sample_count ≤ 500000` the 32-bit expression
`(pin_count*sample_count + 31) / 32` of `main` does not wrap and equals
`ceil(pin_count*sample_count / 32)`, the `malloc` size is four times that, also
without wrapping; and `required_words` is 1 at (2,3), 2 at (3,11), 1 at (32,1),
which the expression of `main` computes too. -/
theorem capture_size_words_eq_required_words :
    (∀ pin_count sample_count : Nat, pin_count ≤ 28 → sample_count ≤ 500000 →
      pin_count * sample_count + 31 < 2 ^ 32 ∧
      capture_size_words pin_count sample_count = required_words pin_count sample_count ∧
      4 * required_words pin_count sample_count < 2 ^ 32 ∧
      capture_buf_memory_size pin_count sample_count
        = 4 * required_words pin_count sample_count) ∧
    (required_words 2 3 = 1 ∧ required_words 3 11 = 2 ∧ required_words 32 1 = 1) ∧
    (capture_size_words 2 3 = 1 ∧ capture_size_words 3 11 = 2 ∧ capture_size_words 32 1 = 1) := by
  refine ⟨?_, ?_, by decide⟩
  · intro pin_count sample_count hp hs
    have hprod : pin_count * sample_count ≤ 28 * 500000 := Nat.mul_le_mul hp hs
    have hw : capture_size_words pin_count sample_count
        = (pin_count * sample_count + 31) / 32 := by
      unfold capture_size_words UINT_MOD
      rw [Nat.mod_eq_of_lt (by omega), Nat.mod_eq_of_lt (by omega)]
    unfold capture_buf_memory_size UINT_MOD
    rw [hw, required_words_eq]
    refine ⟨by omega, rfl, by omega, ?_⟩
    rw [Nat.mod_eq_of_lt (by omega)]
    omega
  · simp only [required_words_eq]
    decide

/-- C4 at the largest validated configuration: 28 pins and 500000 samples need
437500 words, 1750000 bytes. -/
theorem capture_size_words_eq_required_words_witness :
    (28 ≤ 28 ∧ 500000 ≤ 500000) ∧
    capture_size_words 28 500000 = required_words 28 500000 ∧
    capture_size_words 28 500000 = 437500 ∧
    capture_buf_memory_size 28 500000 = 1750000 :=
  ⟨by decide,
   (capture_size_words_eq_required_words.1 28 500000 (by decide) (by decide)).2.1,
   by decide, by decide⟩

/-! ## Lemmas on `strtol` and the command dispatch -/

/-- A digit is neither white space nor a sign, so `strtol` converts the digits
that start the string and saturates at `LONG_MAX`. -/
theorem strtol_of_isdigit (c : Char) (cs : List Char) (h : isdigit c = true) :
    strtol (c :: cs) = min LONG_MAX (digits_value 0 (c :: cs) : Int) := by
  have hd : 48 ≤ c.toNat ∧ c.toNat ≤ 57 := by
    simpa [isdigit] using h
  have hsp : isspace c = false := by
    simp only [isspace, decide_eq_false_iff_not]
    omega
  have hminus : c ≠ '-' := by
    intro hc
    rw [hc] at hd
    exact absurd hd (by decide)
  have hplus : c ≠ '+' := by
    intro hc
    rw [hc] at hd
    exact absurd hd (by decide)
  rw [strtol]
  simp [hsp, hminus, hplus]

/-- When `buffer[1]` is a digit, the string at `buffer + 1` starts with it. -/
theorem drop_one_of_isdigit (buffer : List Char) (h : isdigit (buffer_at buffer 1) = true) :
    ∃ c cs, buffer.drop 1 = c :: cs ∧ isdigit c = true := by
  match buffer, h with
  | [], h => exact absurd h (by decide)
  | [a], h => exact absurd h (by simp [buffer_at, isdigit])
  | _ :: c :: cs, h => exact ⟨c, cs, rfl, h⟩

theorem strtol_drop_one (buffer : List Char) (h : isdigit (buffer_at buffer 1) = true) :
    strtol (buffer.drop 1) = min LONG_MAX (digits_value 0 (buffer.drop 1) : Int) := by
  obtain ⟨c, cs, hdrop, hc⟩ := drop_one_of_isdigit buffer h
  rw [hdrop, strtol_of_isdigit c cs hc]

theorem strtol_drop_one_nonneg (buffer : List Char) (h : isdigit (buffer_at buffer 1) = true) :
    0 ≤ strtol (buffer.drop 1) := by
  rw [strtol_drop_one buffer h]
  exact le_min (by decide) (Int.natCast_nonneg _)

theorem to_uint_of_nonneg_le (v : Int) (n : Nat) (h0 : 0 ≤ v) (hn : v ≤ n)
    (hsmall : n < 2 ^ 32) : to_uint v ≤ n := by
  unfold to_uint UINT_MOD
  have hlt : v < ((2 ^ 32 : Nat) : Int) := by
    have : (n : Int) < ((2 ^ 32 : Nat) : Int) := by exact_mod_cast hsmall
    omega
  rw [Int.emod_eq_of_lt h0 hlt]
  omega

/-- The configuration left by a `p` command. -/
theorem dispatch_command_p (hz : Nat) (buffer : List Char) (st : Config)
    (h : buffer_at buffer 0 = 'p') :
    (dispatch_command hz buffer st).1
      = if isdigit (buffer_at buffer 1) = true ∧ strtol (buffer.drop 1) ≤ 28 then
          { st with CAPTURE_PIN_BASE := to_uint (strtol (buffer.drop 1)) }
        else st := by
  unfold dispatch_command
  rw [if_pos h]
  by_cases hd : isdigit (buffer_at buffer 1) = true
  · have h0 := strtol_drop_one_nonneg buffer hd
    generalize strtol (buffer.drop 1) = v at h0 ⊢
    by_cases h28 : v > 28
    · have hn : ¬ v ≤ 28 := by omega
      simp [hd, h28, hn]
    · have hn : v ≤ 28 := by omega
      have hne : v ≠ -1 := by omega
      simp [hd, h28, hn, hne]
  · simp [hd]

/-- The configuration left by an `n` command. -/
theorem dispatch_command_n (hz : Nat) (buffer : List Char) (st : Config)
    (h : buffer_at buffer 0 = 'n') :
    (dispatch_command hz buffer st).1
      = if isdigit (buffer_at buffer 1) = true ∧ strtol (buffer.drop 1) ≤ 28 then
          { st with CAPTURE_PIN_COUNT := to_uint (strtol (buffer.drop 1)) }
        else st := by
  have hp : buffer_at buffer 0 ≠ 'p' := by rw [h]; decide
  unfold dispatch_command
  rw [if_neg hp, if_pos h]
  by_cases hd : isdigit (buffer_at buffer 1) = true
  · have h0 := strtol_drop_one_nonneg buffer hd
    generalize strtol (buffer.drop 1) = v at h0 ⊢
    by_cases h28 : v > 28
    · have hn : ¬ v ≤ 28 := by omega
      simp [hd, h28, hn]
    · have hn : v ≤ 28 := by omega
      have hne : v ≠ -1 := by omega
      simp [hd, h28, hn, hne]
  · simp [hd]

/-- The configuration left by an `f` command: the test `freq < 0` of line 166
is on an unsigned value and never holds, so the frequency is always stored. -/
theorem dispatch_command_f (hz : Nat) (buffer : List Char) (st : Config)
    (h : buffer_at buffer 0 = 'f') :
    (dispatch_command hz buffer st).1
      = { st with
          FREQUENCY :=
            if isdigit (buffer_at buffer 1) = true ∧ to_uint (strtol (buffer.drop 1)) ≤ hz
            then to_uint (strtol (buffer.drop 1)) else 0
          FREQ_DIV := FloatVal.div (FloatVal.of_uint hz) (FloatVal.of_uint
            (if isdigit (buffer_at buffer 1) = true ∧ to_uint (strtol (buffer.drop 1)) ≤ hz
             then to_uint (strtol (buffer.drop 1)) else 0)) } := by
  have hp : buffer_at buffer 0 ≠ 'p' := by rw [h]; decide
  have hn : buffer_at buffer 0 ≠ 'n' := by rw [h]; decide
  unfold dispatch_command
  rw [if_neg hp, if_neg hn, if_pos h]
  generalize to_uint (strtol (buffer.drop 1)) = v
  by_cases hd : isdigit (buffer_at buffer 1) = true
  · by_cases hv : v > hz
    · have hle : ¬ v ≤ hz := by omega
      simp [hd, hv, hle]
    · have hle : v ≤ hz := by omega
      simp [hd, hv, hle]
  · simp [hd]

/-- The configuration left by a `t` command. -/
theorem dispatch_command_t (hz : Nat) (buffer : List Char) (st : Config)
    (h : buffer_at buffer 0 = 't') :
    (dispatch_command hz buffer st).1
      = if buffer_at buffer 1 = 't' ∨ buffer_at buffer 1 = '1' then { st with TRIGGER := true }
        else if buffer_at buffer 1 = 'f' ∨ buffer_at buffer 1 = '0' then
          { st with TRIGGER := false }
        else st := by
  have hp : buffer_at buffer 0 ≠ 'p' := by rw [h]; decide
  have hn : buffer_at buffer 0 ≠ 'n' := by rw [h]; decide
  have hf : buffer_at buffer 0 ≠ 'f' := by rw [h]; decide
  unfold dispatch_command
  rw [if_neg hp, if_neg hn, if_neg hf, if_pos h]
  by_cases h1 : buffer_at buffer 1 = 't' ∨ buffer_at buffer 1 = '1'
  · simp [h1]
  · by_cases h2 : buffer_at buffer 1 = 'f' ∨ buffer_at buffer 1 = '0'
    · simp [h1, h2]
    · simp [h1, h2]

/-- The configuration left by an `s` command. -/
theorem dispatch_command_s (hz : Nat) (buffer : List Char) (st : Config)
    (h : buffer_at buffer 0 = 's') :
    (dispatch_command hz buffer st).1
      = if isdigit (buffer_at buffer 1) = true ∧ strtol (buffer.drop 1) ≤ 500000 then
          { st with CAPTURE_N_SAMPLES := to_uint (strtol (buffer.drop 1)) }
        else st := by
  have hp : buffer_at buffer 0 ≠ 'p' := by rw [h]; decide
  have hn : buffer_at buffer 0 ≠ 'n' := by rw [h]; decide
  have hf : buffer_at buffer 0 ≠ 'f' := by rw [h]; decide
  have ht : buffer_at buffer 0 ≠ 't' := by rw [h]; decide
  unfold dispatch_command
  rw [if_neg hp, if_neg hn, if_neg hf, if_neg ht, if_pos h]
  by_cases hd : isdigit (buffer_at buffer 1) = true
  · have h0 := strtol_drop_one_nonneg buffer hd
    generalize strtol (buffer.drop 1) = v at h0 ⊢
    by_cases hbig : v > 500000
    · have hle : ¬ v ≤ 500000 := by omega
      simp [hd, hbig, hle]
    · have hle : v ≤ 500000 := by omega
      have hne : v ≠ -1 := by omega
      have hneg : ¬ v < 0 := by omega
      simp [hd, hbig, hle, hne, hneg]
  · simp [hd]

/-- Any other line, the `g` command included, leaves the configuration. -/
theorem dispatch_command_other (hz : Nat) (buffer : List Char) (st : Config)
    (hp : buffer_at buffer 0 ≠ 'p') (hn : buffer_at buffer 0 ≠ 'n')
    (hf : buffer_at buffer 0 ≠ 'f') (ht : buffer_at buffer 0 ≠ 't')
    (hs : buffer_at buffer 0 ≠ 's') :
    (dispatch_command hz buffer st).1 = st := by
  unfold dispatch_command
  rw [if_neg hp, if_neg hn, if_neg hf, if_neg ht, if_neg hs]
  split_ifs <;> rfl

/-- Every command leaves each field within the range its validation checks. -/
theorem dispatch_command_in_range (hz : Nat) (buffer : List Char) (st : Config)
    (h : st.in_range) : (dispatch_command hz buffer st).1.in_range := by
  obtain ⟨hb, hc, hn⟩ := h
  by_cases hp : buffer_at buffer 0 = 'p'
  · rw [dispatch_command_p hz buffer st hp]
    split_ifs with hacc
    · exact ⟨to_uint_of_nonneg_le _ 28 (strtol_drop_one_nonneg buffer hacc.1)
        (by exact_mod_cast hacc.2) (by decide), hc, hn⟩
    · exact ⟨hb, hc, hn⟩
  by_cases hnn : buffer_at buffer 0 = 'n'
  · rw [dispatch_command_n hz buffer st hnn]
    split_ifs with hacc
    · exact ⟨hb, to_uint_of_nonneg_le _ 28 (strtol_drop_one_nonneg buffer hacc.1)
        (by exact_mod_cast hacc.2) (by decide), hn⟩
    · exact ⟨hb, hc, hn⟩
  by_cases hf : buffer_at buffer 0 = 'f'
  · rw [dispatch_command_f hz buffer st hf]
    exact ⟨hb, hc, hn⟩
  by_cases ht : buffer_at buffer 0 = 't'
  · rw [dispatch_command_t hz buffer st ht]
    split_ifs <;> exact ⟨hb, hc, hn⟩
  by_cases hs : buffer_at buffer 0 = 's'
  · rw [dispatch_command_s hz buffer st hs]
    split_ifs with hacc
    · exact ⟨hb, hc, to_uint_of_nonneg_le _ 500000 (strtol_drop_one_nonneg buffer hacc.1)
        (by exact_mod_cast hacc.2) (by decide)⟩
    · exact ⟨hb, hc, hn⟩
  rw [dispatch_command_other hz buffer st hp hnn hf ht hs]
  exact ⟨hb, hc, hn⟩

/-- The range of the fields is an invariant of the whole command loop. -/
theorem read_user_input_from_in_range (hz : Nat) (input : List (Option Char)) :
    ∀ (buffer : List Char) (st : Config) (evs : List Ev) (r : ReadResult),
      st.in_range → read_user_input_from hz input buffer st evs = some r →
      r.config.in_range := by
  induction input with
  | nil =>
    intro buffer st evs r _ h
    simp [read_user_input_from] at h
  | cons x rest ih =>
    intro buffer st evs r hst h
    cases x with
    | none =>
      rw [read_user_input_from] at h
      exact ih buffer st evs r hst h
    | some c =>
      rw [read_user_input_from] at h
      dsimp only at h
      split_ifs at h
      · rw [Option.some.injEq] at h
        subst h
        exact dispatch_command_in_range hz buffer st hst
      · exact ih _ _ _ r (dispatch_command_in_range hz buffer st hst) h
      · rw [Option.some.injEq] at h
        subst h
        exact dispatch_command_in_range hz _ st hst
      · exact ih _ _ _ r (dispatch_command_in_range hz _ st hst) h
      · exact ih _ _ _ r hst h

/-- The line `g` leaves the command loop. -/
theorem dispatch_command_g (hz : Nat) (st : Config) :
    (dispatch_command hz ['g'] st).2.2 = true := by
  have h0 : buffer_at ['g'] 0 = 'g' := rfl
  unfold dispatch_command
  rw [h0, if_neg (by decide), if_neg (by decide), if_neg (by decide), if_neg (by decide),
    if_neg (by decide), if_pos rfl]

/-- The function `read_user_input` returns on every input stream in which a
line break and the line `g` eventually arrive, whatever precedes them. -/
theorem read_user_input_from_returns (hz : Nat) (input : List (Option Char)) :
    ∀ (buffer : List Char) (st : Config) (evs : List Ev),
      ∃ r, read_user_input_from hz (input ++ typed "\rg\r") buffer st evs = some r := by
  have htyped : typed "\rg\r" = [some '\r', some 'g', some '\r'] := rfl
  induction input with
  | nil =>
    intro buffer st evs
    rw [List.nil_append, htyped, read_user_input_from, if_pos (Or.inl rfl)]
    dsimp only
    split_ifs
    · exact ⟨_, rfl⟩
    · rw [read_user_input_from, if_neg (by decide), if_neg (by decide), read_user_input_from,
        if_pos (Or.inl rfl)]
      dsimp only
      rw [List.nil_append, if_pos (dispatch_command_g hz _)]
      exact ⟨_, rfl⟩
  | cons x rest ih =>
    intro buffer st evs
    rw [List.cons_append]
    cases x with
    | none =>
      rw [read_user_input_from]
      exact ih buffer st evs
    | some c =>
      rw [read_user_input_from]
      dsimp only
      split_ifs
      · exact ⟨_, rfl⟩
      · exact ih _ _ _
      · exact ⟨_, rfl⟩
      · exact ih _ _ _
      · exact ih _ _ _

/-! ## C5: the configuration invariant -/

/-- C5 (amended): starting from the default configuration (pin base 17, pin
count 2, 200000 samples), whatever input `read_user_input` has processed when
it returns, the configuration handed to the capture satisfies
`pin_base ≤ 28`, `pin_count ≤ 28` and `sample_count ≤ 500000`. -/
theorem read_user_input_in_range (hz : Nat) (input : List (Option Char)) (r : ReadResult)
    (h : read_user_input hz input default_config = some r) :
    r.config.CAPTURE_PIN_BASE ≤ 28 ∧ r.config.CAPTURE_PIN_COUNT ≤ 28 ∧
    r.config.CAPTURE_N_SAMPLES ≤ 500000 :=
  read_user_input_from_in_range hz input [] default_config [] r (by decide) h

/-- C5 on a session that sets all three fields to their largest accepted
values: `read_user_input` returns, the fields are 28, 28 and 500000, and they
are within range. -/
theorem read_user_input_in_range_witness :
    ∃ r, read_user_input 125000000 (typed "p28\rn28\rs500000\rg\r") default_config = some r ∧
      r.config = { default_config with
        CAPTURE_PIN_BASE := 28, CAPTURE_PIN_COUNT := 28, CAPTURE_N_SAMPLES := 500000 } ∧
      (r.config.CAPTURE_PIN_BASE ≤ 28 ∧ r.config.CAPTURE_PIN_COUNT ≤ 28 ∧
        r.config.CAPTURE_N_SAMPLES ≤ 500000) := by
  obtain ⟨r, hr, hc⟩ := Option.map_eq_some'.mp
    (by decide : (read_user_input 125000000 (typed "p28\rn28\rs500000\rg\r")
        default_config).map ReadResult.config
      = some { default_config with
          CAPTURE_PIN_BASE := 28, CAPTURE_PIN_COUNT := 28, CAPTURE_N_SAMPLES := 500000 })
  exact ⟨r, hr, hc, read_user_input_in_range 125000000 _ r hr⟩

/-- C5 as stated fails: from the default configuration the command `n0` is
accepted and `read_user_input` returns with a pin count of 0; the command `p28`
is accepted and it returns with pin base 28 and pin count 2, so that
`pin_base + pin_count - 1 = 29`.  Neither configuration satisfies the
invariants of the specification. -/
theorem read_user_input_breaks_spec_invariant :
    ((read_user_input 125000000 (typed "n0\rg\r") default_config).map ReadResult.config
        = some { default_config with CAPTURE_PIN_COUNT := 0 } ∧
      ¬ Config.spec_invariant { default_config with CAPTURE_PIN_COUNT := 0 }) ∧
    ((read_user_input 125000000 (typed "p28\rg\r") default_config).map ReadResult.config
        = some { default_config with CAPTURE_PIN_BASE := 28 } ∧
      28 + default_config.CAPTURE_PIN_COUNT - 1 = 29 ∧
      ¬ Config.spec_invariant { default_config with CAPTURE_PIN_BASE := 28 }) := by
  decide

/-! ## C6: rejection of invalid arguments -/

/-- A value above a bound below `LONG_MAX` stays above it after saturation. -/
theorem strtol_drop_one_gt (buffer : List Char) (bound : Nat)
    (hd : isdigit (buffer_at buffer 1) = true) (hb : (bound : Int) < LONG_MAX)
    (h : bound < digits_value 0 (buffer.drop 1)) :
    (bound : Int) < strtol (buffer.drop 1) := by
  rw [strtol_drop_one buffer hd]
  exact lt_min hb (by exact_mod_cast h)

/-- The commands `p`, `n`, `s` and `t` reject an invalid argument without
touching the configuration. -/
theorem dispatch_command_rejects_atomically (hz : Nat) (buffer : List Char) (st : Config)
    (hinv : invalid_argument hz buffer) (hnf : buffer_at buffer 0 ≠ 'f') :
    (dispatch_command hz buffer st).1 = st := by
  rcases hinv with ⟨hpn, harg⟩ | ⟨hs, harg⟩ | ⟨hf, _⟩ | ⟨ht, h1, h2, h3, h4⟩
  · have hrej : ¬ (isdigit (buffer_at buffer 1) = true ∧ strtol (buffer.drop 1) ≤ 28) := by
      rintro ⟨hd, hle⟩
      rcases harg with hnd | hbig
      · rw [hd] at hnd
        exact absurd hnd (by decide)
      · have := strtol_drop_one_gt buffer 28 hd (by decide) hbig
        omega
    rcases hpn with hp | hn
    · rw [dispatch_command_p hz buffer st hp, if_neg hrej]
    · rw [dispatch_command_n hz buffer st hn, if_neg hrej]
  · have hrej : ¬ (isdigit (buffer_at buffer 1) = true ∧ strtol (buffer.drop 1) ≤ 500000) := by
      rintro ⟨hd, hle⟩
      rcases harg with hnd | hbig
      · rw [hd] at hnd
        exact absurd hnd (by decide)
      · have := strtol_drop_one_gt buffer 500000 hd (by decide) hbig
        omega
    rw [dispatch_command_s hz buffer st hs, if_neg hrej]
  · exact absurd hf hnf
  · rw [dispatch_command_t hz buffer st ht, if_neg (by tauto), if_neg (by tauto)]

/-- C6 at the failing inputs: in the default configuration, with a system clock
of 125 MHz, the lines `fx` (no digit after `f`) and `f999999999` (a value above
the system clock frequency) have an invalid argument, yet processing either
overwrites `FREQUENCY` (1000000 before) with 0 and `FREQ_DIV` with the quotient
by that zero. -/
theorem dispatch_command_f_invalid_overwrites :
    (invalid_argument 125000000 "fx".toList ∧
      (dispatch_command 125000000 "fx".toList default_config).1
        = { default_config with
            FREQUENCY := 0
            FREQ_DIV := FloatVal.div (FloatVal.of_uint 125000000) (FloatVal.of_uint 0) }) ∧
    (invalid_argument 125000000 "f999999999".toList ∧
      (dispatch_command 125000000 "f999999999".toList default_config).1
        = { default_config with
            FREQUENCY := 0
            FREQ_DIV := FloatVal.div (FloatVal.of_uint 125000000) (FloatVal.of_uint 0) }) ∧
    default_config.FREQUENCY = 1000000 ∧ default_config.FREQ_DIV = FloatVal.lit 125 := by
  decide

/-! ## C7: validity of the frequency -/

/-- After any `f` command the stored frequency is at most the system clock
frequency. -/
theorem dispatch_command_f_le (hz : Nat) (buffer : List Char) (st : Config)
    (h : buffer_at buffer 0 = 'f') : (dispatch_command hz buffer st).1.FREQUENCY ≤ hz := by
  rw [dispatch_command_f hz buffer st h]
  dsimp only
  split_ifs with hacc
  · exact hacc.2
  · exact Nat.zero_le _

/-- C7 at the failing input: with a system clock of 125 MHz the line `f0` is an
`f` command that stores `FREQUENCY = 0` and computes `FREQ_DIV` as the system
clock frequency divided by zero; the message of line 167 is not printed. -/
theorem dispatch_command_f_zero :
    buffer_at "f0".toList 0 = 'f' ∧
    (dispatch_command 125000000 "f0".toList default_config).1.FREQUENCY = 0 ∧
    (dispatch_command 125000000 "f0".toList default_config).1.FREQ_DIV
      = FloatVal.div (FloatVal.of_uint 125000000) (FloatVal.of_uint 0) ∧
    (dispatch_command 125000000 "f0".toList default_config).2.1
      = [Ev.printf "Frequency is %d div is %f\n"
          [Arg.uint 0,
           Arg.float (FloatVal.div (FloatVal.of_uint 125000000) (FloatVal.of_uint 0))]] := by
  decide

/-! ## C8: allocation failure -/

/-- C8 at the failing input: whenever `read_user_input` returns and `malloc`
returns `NULL`, the iteration of `main` prints the allocation error and then
still runs `logic_analyser_init`, `logic_analyser_arm` with the null pointer as
DMA write address, and `print_capture_buf_csv` on the null pointer. -/
theorem main_cycle_null_buffer_still_arms (hz offset : Nat) (captured : List Nat)
    (input : List (Option Char)) (st : Config) (r0 : ReadResult)
    (h : read_user_input hz input st = some r0) :
    ∃ r pre mid post,
      main_cycle hz ⟨0, offset, captured⟩ input st = some r ∧
      r.events = pre
        ++ [Ev.malloc
              (capture_buf_memory_size r0.config.CAPTURE_PIN_COUNT r0.config.CAPTURE_N_SAMPLES) 0,
            Ev.printf "Error allocating capture buffer size %d\n"
              [Arg.uint (capture_buf_memory_size r0.config.CAPTURE_PIN_COUNT
                r0.config.CAPTURE_N_SAMPLES)]]
        ++ logic_analyser_init r0.config.CAPTURE_PIN_BASE r0.config.CAPTURE_PIN_COUNT
             r0.config.FREQ_DIV offset
        ++ mid
        ++ logic_analyser_arm 0
             (capture_size_words r0.config.CAPTURE_PIN_COUNT r0.config.CAPTURE_N_SAMPLES)
             r0.config.CAPTURE_PIN_BASE r0.config.TRIGGER
        ++ [Ev.dma_channel_wait_for_finish_blocking, Ev.gpio_put LED_PIN false,
            Ev.call_print_capture_buf_csv 0 r0.config.CAPTURE_PIN_BASE
              r0.config.CAPTURE_PIN_COUNT r0.config.CAPTURE_N_SAMPLES]
        ++ post := by
  refine ⟨⟨r0.config, r0.rest,
      [Ev.gpio_put LED_PIN true, Ev.sleep_ms 1000, Ev.gpio_put LED_PIN false]
        ++ r0.events ++ capture_cycle hz ⟨0, offset, captured⟩ r0.config⟩,
    [Ev.gpio_put LED_PIN true, Ev.sleep_ms 1000, Ev.gpio_put LED_PIN false] ++ r0.events,
    [Ev.printf "Clock speed is   %d\n" [Arg.uint hz],
     Ev.printf "Capture speed is %f.2\n"
       [Arg.float (FloatVal.div (FloatVal.of_uint hz) r0.config.FREQ_DIV)],
     Ev.printf "Arming trigger\n" [],
     Ev.gpio_put LED_PIN true],
    print_capture_buf_csv captured r0.config.CAPTURE_PIN_BASE r0.config.CAPTURE_PIN_COUNT
        r0.config.CAPTURE_N_SAMPLES
      ++ [Ev.pio_remove_program ProgramPtr.dangling offset, Ev.free 0], ?_, ?_⟩
  · rw [main_cycle, h]
  · simp only [capture_cycle, if_true, List.append_assoc]
    rfl

/-- C8 on the first iteration of `main`: the user types `g`, `malloc` returns
`NULL` for the 50000 bytes of the default configuration, and the iteration
goes on to install the program, arm the DMA channel with write address 0 and
call the decoder on the null pointer. -/
theorem main_cycle_null_buffer_still_arms_witness :
    ∃ r0, read_user_input 125000000 (typed "g\r") default_config = some r0 ∧
      r0.config = default_config ∧
      capture_buf_memory_size 2 200000 = 50000 ∧
      ∃ r pre mid post,
        main_cycle 125000000 ⟨0, 0, []⟩ (typed "g\r") default_config = some r ∧
        r.events = pre
          ++ [Ev.malloc
                (capture_buf_memory_size r0.config.CAPTURE_PIN_COUNT
                  r0.config.CAPTURE_N_SAMPLES) 0,
              Ev.printf "Error allocating capture buffer size %d\n"
                [Arg.uint (capture_buf_memory_size r0.config.CAPTURE_PIN_COUNT
                  r0.config.CAPTURE_N_SAMPLES)]]
          ++ logic_analyser_init r0.config.CAPTURE_PIN_BASE r0.config.CAPTURE_PIN_COUNT
               r0.config.FREQ_DIV 0
          ++ mid
          ++ logic_analyser_arm 0
               (capture_size_words r0.config.CAPTURE_PIN_COUNT r0.config.CAPTURE_N_SAMPLES)
               r0.config.CAPTURE_PIN_BASE r0.config.TRIGGER
          ++ [Ev.dma_channel_wait_for_finish_blocking, Ev.gpio_put LED_PIN false,
              Ev.call_print_capture_buf_csv 0 r0.config.CAPTURE_PIN_BASE
                r0.config.CAPTURE_PIN_COUNT r0.config.CAPTURE_N_SAMPLES]
          ++ post := by
  obtain ⟨r0, hr, hc⟩ := Option.map_eq_some'.mp
    (by decide : (read_user_input 125000000 (typed "g\r") default_config).map
        ReadResult.config = some default_config)
  exact ⟨r0, hr, hc, by decide,
    main_cycle_null_buffer_still_arms 125000000 0 [] (typed "g\r") default_config r0 hr⟩

/-! ## C3: packing by the sampling unit against the decoder's addressing -/

set_option maxRecDepth 8000 in
/-- With two pins, which divide 32, the sampling unit packs the scenario of the
specification (followed by thirteen all-low samples) into the word `0b101101`,
which the decoder prints back as the sampled levels. -/
theorem sampled_words_two_pins :
    sampled_words 17 2 (FloatVal.lit 125) 0
        (([1, 3, 2] ++ List.replicate 13 0).map fun v => v <<< 17) = [0b101101] ∧
    ∀ s, s < 3 → ∀ p, p < 2 →
      level [0b101101] p s 2
        = sampled_level 17 (([1, 3, 2] ++ List.replicate 13 0).map fun v => v <<< 17) p s := by
  decide

/-- C3 at the failing input `pin_count = 3`: eleven executions of `in pins, 3`
shift 33 bits through the 32-bit register before the push at threshold 32, so
the word pushed has lost pin 0 of sample 0 and holds every later bit one place
lower than the decoder reads it.  When only pin 0 of sample 0 is high the word
is 0 and the decoder prints that pin low; when only pin 1 of sample 0 is high
the word is 1 and the decoder prints pin 0 high and pin 1 low. -/
theorem sampled_words_three_pins_misaligned :
    (sampled_words 0 3 (FloatVal.lit 125) 0 (1 :: List.replicate 10 0) = [0] ∧
      sampled_level 0 (1 :: List.replicate 10 0) 0 0 = true ∧
      level (sampled_words 0 3 (FloatVal.lit 125) 0 (1 :: List.replicate 10 0)) 0 0 3
        = false) ∧
    (sampled_words 0 3 (FloatVal.lit 125) 0 (2 :: List.replicate 10 0) = [1] ∧
      sampled_level 0 (2 :: List.replicate 10 0) 0 0 = false ∧
      sampled_level 0 (2 :: List.replicate 10 0) 1 0 = true ∧
      level (sampled_words 0 3 (FloatVal.lit 125) 0 (2 :: List.replicate 10 0)) 0 0 3
        = true ∧
      level (sampled_words 0 3 (FloatVal.lit 125) 0 (2 :: List.replicate 10 0)) 1 0 3
        = false) ∧
    capture_size_words 3 11 = 2 := by
  decide

/-- The words pushed are those of the run of `in pins, pin_count` under the
configuration of `logic_analyser_init`. -/
theorem sampled_words_eq (pin_base pin_count : Nat) (div : FloatVal) (offset : Nat)
    (samples : List Nat) :
    sampled_words pin_base pin_count div offset samples
      = (sm_run (capture_sm_config pin_base div offset) (Instr.in_pins pin_count)
          samples).rx_fifo := rfl

theorem sm_run_append_singleton (c : SmConfig) (bit_count : Nat) (l : List Nat) (a : Nat) :
    sm_run c (Instr.in_pins bit_count) (l ++ [a])
      = sm_exec_in c bit_count a (sm_run c (Instr.in_pins bit_count) l) := by
  simp [sm_run, List.foldl_append, sm_exec]

theorem sampled_level_append_left (pin_base : Nat) (l : List Nat) (a pin sample : Nat)
    (h : sample < l.length) :
    sampled_level pin_base (l ++ [a]) pin sample = sampled_level pin_base l pin sample := by
  unfold sampled_level
  rw [List.getD_append _ _ _ _ h]

theorem sampled_level_append_last (pin_base : Nat) (l : List Nat) (a pin sample : Nat)
    (h : sample = l.length) :
    sampled_level pin_base (l ++ [a]) pin sample = a.testBit (pin_base + pin) := by
  unfold sampled_level
  rw [h, List.getD_append_right _ _ _ _ (le_refl _)]
  simp

/-- Bit `b` of the register after a right-shift-in of `n` lines. -/
theorem testBit_shift_in (x a base n b : Nat) (hn : n ≤ 32) :
    ((x >>> n) ||| (((a >>> base) % 2 ^ n) <<< (32 - n))).testBit b
      = (x.testBit (n + b) ||
          (decide (32 - n ≤ b ∧ b < 32) && a.testBit (base + (b - (32 - n))))) := by
  rw [Nat.testBit_or, Nat.testBit_shiftRight, Nat.testBit_shiftLeft, Nat.testBit_mod_two_pow,
    Nat.testBit_shiftRight]
  by_cases hb : 32 - n ≤ b
  · by_cases hb2 : b < 32
    · have hb3 : b - (32 - n) < n := by omega
      simp [hb, hb2, hb3]
    · have hb3 : ¬ b - (32 - n) < n := by omega
      simp [hb, hb2, hb3]
  · simp [hb]

/-- The state of the sampling unit after any stream, when the number `n` of
pins divides 32: the register holds the samples of the word in progress from
the top down, and every pushed word holds `32 / n` samples, pin `p` of the
`i`-th of them at bit `i * n + p`. -/
theorem sm_run_invariant (pin_base n : Nat) (div : FloatVal) (offset : Nat)
    (hn : n = 1 ∨ n = 2 ∨ n = 4 ∨ n = 8 ∨ n = 16) (samples : List Nat) :
    (sm_run (capture_sm_config pin_base div offset) (Instr.in_pins n) samples).isr_count
      = samples.length % (32 / n) * n ∧
    (sm_run (capture_sm_config pin_base div offset) (Instr.in_pins n) samples).rx_fifo.length
      = samples.length / (32 / n) ∧
    (∀ b, (sm_run (capture_sm_config pin_base div offset) (Instr.in_pins n)
          samples).isr.testBit b
        = (decide (32 - samples.length % (32 / n) * n ≤ b ∧ b < 32) &&
            sampled_level pin_base samples
              ((b - (32 - samples.length % (32 / n) * n)) % n)
              (samples.length / (32 / n) * (32 / n)
                + (b - (32 - samples.length % (32 / n) * n)) / n))) ∧
    (∀ j b, j < samples.length / (32 / n) → b < 32 →
        ((sm_run (capture_sm_config pin_base div offset) (Instr.in_pins n)
          samples).rx_fifo.getD j 0).testBit b
        = sampled_level pin_base samples (b % n) (j * (32 / n) + b / n)) := by
  have hn32 : n ≤ 32 := by rcases hn with rfl | rfl | rfl | rfl | rfl <;> omega
  induction samples using List.reverseRecOn with
  | nil =>
    refine ⟨by simp [sm_run], by simp [sm_run], ?_, ?_⟩
    · intro b
      have h : ¬ (32 ≤ b ∧ b < 32) := by omega
      simp [sm_run, h]
    · intro j b hj
      simp at hj
  | append_singleton l a ih =>
    obtain ⟨hc, hl, hi, hw⟩ := ih
    rw [sm_run_append_singleton]
    generalize sm_run (capture_sm_config pin_base div offset) (Instr.in_pins n) l = s
      at hc hl hi hw
    have hlen : (l ++ [a]).length = l.length + 1 := by simp
    rw [hlen]
    unfold sm_exec_in
    simp only [capture_sm_config, if_true, true_and, hc]
    by_cases hpush : 32 ≤ min 32 (l.length % (32 / n) * n + n)
    · rw [if_pos hpush]
      have hr : l.length % (32 / n) * n + n = 32 := by
        rcases hn with rfl | rfl | rfl | rfl | rfl <;> omega
      refine ⟨?_, ?_, ?_, ?_⟩
      · show 0 = (l.length + 1) % (32 / n) * n
        rcases hn with rfl | rfl | rfl | rfl | rfl <;> omega
      · show (s.rx_fifo ++ [_]).length = (l.length + 1) / (32 / n)
        rw [List.length_append, List.length_singleton, hl]
        rcases hn with rfl | rfl | rfl | rfl | rfl <;> omega
      · intro b
        show Nat.testBit 0 b = _
        have h : ¬ (32 - (l.length + 1) % (32 / n) * n ≤ b ∧ b < 32) := by
          rcases hn with rfl | rfl | rfl | rfl | rfl <;> omega
        rw [Nat.zero_testBit, decide_eq_false h, Bool.false_and]
      · intro j b hj hb
        show ((s.rx_fifo ++ [_]).getD j 0).testBit b = _
        by_cases hjl : j < l.length / (32 / n)
        · rw [List.getD_append _ _ _ _ (by rw [hl]; exact hjl), hw j b hjl hb,
            sampled_level_append_left]
          rcases hn with rfl | rfl | rfl | rfl | rfl <;> omega
        · have hj' : j = s.rx_fifo.length := by
            rw [hl]
            rcases hn with rfl | rfl | rfl | rfl | rfl <;> omega
          rw [hj', List.getD_append_right _ _ _ _ (le_refl _), Nat.sub_self,
            List.getD_cons_zero, testBit_shift_in _ _ _ _ _ hn32, hi, hl]
          by_cases hlow : n + b < 32
          · have h1 : 32 - l.length % (32 / n) * n ≤ n + b ∧ n + b < 32 := by omega
            have h2 : ¬ (32 - n ≤ b ∧ b < 32) := by omega
            rw [decide_eq_true h1, decide_eq_false h2, Bool.true_and, Bool.false_and,
              Bool.or_false, sampled_level_append_left]
            · congr 1
              · rcases hn with rfl | rfl | rfl | rfl | rfl <;> omega
              · rcases hn with rfl | rfl | rfl | rfl | rfl <;> omega
            · rcases hn with rfl | rfl | rfl | rfl | rfl <;> omega
          · have h1 : ¬ (32 - l.length % (32 / n) * n ≤ n + b ∧ n + b < 32) := by omega
            have h2 : 32 - n ≤ b ∧ b < 32 := by omega
            rw [decide_eq_false h1, decide_eq_true h2, Bool.true_and, Bool.false_and,
              Bool.false_or, sampled_level_append_last]
            · congr 2
              rcases hn with rfl | rfl | rfl | rfl | rfl <;> omega
            · rcases hn with rfl | rfl | rfl | rfl | rfl <;> omega
    · rw [if_neg hpush]
      have hr : l.length % (32 / n) * n + n < 32 := by omega
      have hmin : min 32 (l.length % (32 / n) * n + n) = l.length % (32 / n) * n + n := by
        omega
      have hmod : (l.length + 1) % (32 / n) = l.length % (32 / n) + 1 := by
        rcases hn with rfl | rfl | rfl | rfl | rfl <;> omega
      have hdiv : (l.length + 1) / (32 / n) = l.length / (32 / n) := by
        rcases hn with rfl | rfl | rfl | rfl | rfl <;> omega
      rw [hmod, hdiv]
      refine ⟨?_, hl, ?_, ?_⟩
      · show min 32 (l.length % (32 / n) * n + n) = _
        rw [hmin]
        ring
      · intro b
        show ((s.isr >>> n) ||| (((a >>> pin_base) % 2 ^ n) <<< (32 - n))).testBit b = _
        rw [testBit_shift_in _ _ _ _ _ hn32, hi]
        by_cases hlow : n + b < 32
        · have h2 : ¬ (32 - n ≤ b ∧ b < 32) := by omega
          rw [decide_eq_false h2, Bool.false_and, Bool.or_false]
          by_cases hin : 32 - l.length % (32 / n) * n ≤ n + b
          · have h1 : 32 - l.length % (32 / n) * n ≤ n + b ∧ n + b < 32 := ⟨hin, hlow⟩
            have h3 : 32 - (l.length % (32 / n) + 1) * n ≤ b ∧ b < 32 := by
              constructor
              · have : (l.length % (32 / n) + 1) * n = l.length % (32 / n) * n + n := by ring
                omega
              · omega
            rw [decide_eq_true h1, decide_eq_true h3, Bool.true_and, Bool.true_and,
              sampled_level_append_left]
            · congr 1
              · rcases hn with rfl | rfl | rfl | rfl | rfl <;> omega
              · rcases hn with rfl | rfl | rfl | rfl | rfl <;> omega
            · rcases hn with rfl | rfl | rfl | rfl | rfl <;> omega
          · have h1 : ¬ (32 - l.length % (32 / n) * n ≤ n + b ∧ n + b < 32) := by omega
            have h3 : ¬ (32 - (l.length % (32 / n) + 1) * n ≤ b ∧ b < 32) := by
              have : (l.length % (32 / n) + 1) * n = l.length % (32 / n) * n + n := by ring
              omega
            rw [decide_eq_false h1, decide_eq_false h3, Bool.false_and, Bool.false_and]
        · have h1 : ¬ (32 - l.length % (32 / n) * n ≤ n + b ∧ n + b < 32) := by omega
          rw [decide_eq_false h1, Bool.false_and, Bool.false_or]
          by_cases hb : b < 32
          · have h2 : 32 - n ≤ b ∧ b < 32 := by omega
            have h3 : 32 - (l.length % (32 / n) + 1) * n ≤ b ∧ b < 32 := by
              have : (l.length % (32 / n) + 1) * n = l.length % (32 / n) * n + n := by ring
              omega
            rw [decide_eq_true h2, decide_eq_true h3, Bool.true_and, Bool.true_and,
              sampled_level_append_last]
            · congr 2
              rcases hn with rfl | rfl | rfl | rfl | rfl <;> omega
            · rcases hn with rfl | rfl | rfl | rfl | rfl <;> omega
          · have h2 : ¬ (32 - n ≤ b ∧ b < 32) := by omega
            have h3 : ¬ (32 - (l.length % (32 / n) + 1) * n ≤ b ∧ b < 32) := by omega
            rw [decide_eq_false h2, decide_eq_false h3, Bool.false_and, Bool.false_and]
      · intro j b hj hb
        show (s.rx_fifo.getD j 0).testBit b = _
        rw [hw j b hj hb, sampled_level_append_left]
        rcases hn with rfl | rfl | rfl | rfl | rfl <;> omega

/-- When the pin count divides 32, every bit the decoder reads in a pushed word
is the sampled level of that pin and sample: for such pin counts the packing of
the sampling unit and the addressing of `print_capture_buf_csv` agree. -/
theorem sampled_words_decode (pin_base n : Nat) (div : FloatVal) (offset : Nat)
    (hn : n = 1 ∨ n = 2 ∨ n = 4 ∨ n = 8 ∨ n = 16) (samples : List Nat) (p s : Nat)
    (hp : p < n) (hfit : p + s * n < 2 ^ 32)
    (hin : (p + s * n) / 32 < (sampled_words pin_base n div offset samples).length) :
    level (sampled_words pin_base n div offset samples) p s n
      = sampled_level pin_base samples p s := by
  have hbit : bit_index p s n = p + s * n := by
    have h1 : s * n % 2 ^ 32 = s * n := Nat.mod_eq_of_lt (by omega)
    unfold bit_index UINT_MOD
    rw [h1, Nat.mod_eq_of_lt hfit]
  obtain ⟨_, hl, _, hw⟩ := sm_run_invariant pin_base n div offset hn samples
  rw [sampled_words_eq] at hin ⊢
  rw [level_eq_testBit, hbit, hw _ _ (by rw [← hl]; exact hin) (Nat.mod_lt _ (by decide))]
  congr 1
  · rcases hn with rfl | rfl | rfl | rfl | rfl <;> omega
  · rcases hn with rfl | rfl | rfl | rfl | rfl <;> omega

/-! ## C11: the order of operations in `logic_analyser_arm` -/

/-- C11: every call of `logic_analyser_arm` performs, in this order: state
machine disabled, FIFOs cleared, DMA channel configured (read address fixed at
the unit's RX FIFO, write address incrementing from `capture_buf`, transfer
count `capture_size_words`, paced by the unit's RX data request) and started,
`wait gpio (trigger_level, trigger_pin)` injected, state machine enabled.  So
wherever the state machine is enabled in the sequence, the started transfer and
the injected wait come before it, and nothing comes after it. -/
theorem logic_analyser_arm_order (capture_buf capture_size_words trigger_pin : Nat)
    (trigger_level : Bool) :
    logic_analyser_arm capture_buf capture_size_words trigger_pin trigger_level
      = [Ev.pio_sm_set_enabled false,
         Ev.pio_sm_clear_fifos,
         Ev.dma_channel_configure
           { read_increment := false, write_increment := true, dreq_pio_rx := true,
             write_addr := capture_buf, read_addr_rxf := true,
             transfer_count := capture_size_words, start := true },
         Ev.pio_sm_exec (Instr.wait_gpio trigger_level trigger_pin),
         Ev.pio_sm_set_enabled true] ∧
    ∀ pre post : List Ev,
      logic_analyser_arm capture_buf capture_size_words trigger_pin trigger_level
        = pre ++ Ev.pio_sm_set_enabled true :: post →
      pre = [Ev.pio_sm_set_enabled false,
             Ev.pio_sm_clear_fifos,
             Ev.dma_channel_configure
               { read_increment := false, write_increment := true, dreq_pio_rx := true,
                 write_addr := capture_buf, read_addr_rxf := true,
                 transfer_count := capture_size_words, start := true },
             Ev.pio_sm_exec (Instr.wait_gpio trigger_level trigger_pin)] ∧
      post = [] := by
  refine ⟨rfl, ?_⟩
  intro pre post h
  unfold logic_analyser_arm at h
  rcases pre with _ | ⟨a, _ | ⟨b, _ | ⟨c, _ | ⟨d, _ | ⟨e, pre⟩⟩⟩⟩⟩
  · simp at h
  · simp at h
  · simp at h
  · simp at h
  · simp only [List.cons_append, List.nil_append, List.cons.injEq] at h
    obtain ⟨ha, hb, hc, hd, _, hpost⟩ := h
    exact ⟨by rw [← ha, ← hb, ← hc, ← hd], hpost.symm⟩
  · simp at h

/-- C11 on a call with buffer address 0x20001000, 12500 words, trigger pin 17
and trigger level low: the only place where the state machine is enabled is
the end of the sequence, after the DMA start and the injected wait. -/
theorem logic_analyser_arm_order_witness :
    logic_analyser_arm 0x20001000 12500 17 false
        = [Ev.pio_sm_set_enabled false, Ev.pio_sm_clear_fifos,
           Ev.dma_channel_configure
             { read_increment := false, write_increment := true, dreq_pio_rx := true,
               write_addr := 0x20001000, read_addr_rxf := true,
               transfer_count := 12500, start := true },
           Ev.pio_sm_exec (Instr.wait_gpio false 17)]
          ++ Ev.pio_sm_set_enabled true :: [] ∧
    ([Ev.pio_sm_set_enabled false, Ev.pio_sm_clear_fifos,
      Ev.dma_channel_configure
        { read_increment := false, write_increment := true, dreq_pio_rx := true,
          write_addr := 0x20001000, read_addr_rxf := true,
          transfer_count := 12500, start := true },
      Ev.pio_sm_exec (Instr.wait_gpio false 17)]
        = [Ev.pio_sm_set_enabled false, Ev.pio_sm_clear_fifos,
           Ev.dma_channel_configure
             { read_increment := false, write_increment := true, dreq_pio_rx := true,
               write_addr := 0x20001000, read_addr_rxf := true,
               transfer_count := 12500, start := true },
           Ev.pio_sm_exec (Instr.wait_gpio false 17)] ∧
      ([] : List Ev) = []) :=
  ⟨rfl, (logic_analyser_arm_order 0x20001000 12500 17 false).2 _ [] rfl⟩

/-! ## C15: the decoder's reads stay inside the transferred words -/

/-- C15: for `pin_count ≤ 28` and `n_samples ≤ 500000`, every pin and sample
visited by `print_capture_buf_csv` has a bit index `pin + sample*pin_count`
that does not wrap in 32-bit unsigned arithmetic, and the word it reads lies
strictly below the `(pin_count*n_samples + 31) / 32` words that `main`
transfers, whose byte size is what `main` allocates. -/
theorem print_capture_buf_csv_reads_in_bounds (pin_count n_samples pin sample : Nat)
    (hpc : pin_count ≤ 28) (hns : n_samples ≤ 500000)
    (hp : pin < pin_count) (hs : sample < n_samples) :
    pin + sample * pin_count < 2 ^ 32 ∧
    bit_index pin sample pin_count = pin + sample * pin_count ∧
    bit_index pin sample pin_count / 32 < capture_size_words pin_count n_samples ∧
    capture_size_words pin_count n_samples = (pin_count * n_samples + 31) / 32 ∧
    capture_buf_memory_size pin_count n_samples
      = 4 * capture_size_words pin_count n_samples := by
  have hprod : pin_count * n_samples ≤ 28 * 500000 := Nat.mul_le_mul hpc hns
  have hidx : pin + sample * pin_count < pin_count * n_samples := by
    calc pin + sample * pin_count < pin_count + sample * pin_count := by omega
      _ = (sample + 1) * pin_count := by ring
      _ ≤ n_samples * pin_count := Nat.mul_le_mul_right _ hs
      _ = pin_count * n_samples := Nat.mul_comm _ _
  have hbit := bit_index_eq pin sample pin_count n_samples hp hs (by omega)
  have hw : capture_size_words pin_count n_samples = (pin_count * n_samples + 31) / 32 := by
    unfold capture_size_words UINT_MOD
    rw [Nat.mod_eq_of_lt (by omega), Nat.mod_eq_of_lt (by omega)]
  refine ⟨by omega, hbit, ?_, hw, ?_⟩
  · rw [hbit, hw]
    omega
  · unfold capture_buf_memory_size UINT_MOD
    rw [hw, Nat.mod_eq_of_lt (by omega)]
    omega

/-- C15 at the last pin of the last sample of the largest validated
configuration: bit index 13999999 in word 437499 of 437500. -/
theorem print_capture_buf_csv_reads_in_bounds_witness :
    (28 ≤ 28 ∧ 500000 ≤ 500000 ∧ 27 < 28 ∧ 499999 < 500000) ∧
    bit_index 27 499999 28 = 13999999 ∧
    bit_index 27 499999 28 / 32 = 437499 ∧
    capture_size_words 28 500000 = 437500 ∧
    bit_index 27 499999 28 / 32 < capture_size_words 28 500000 :=
  ⟨by decide, by decide, by decide, by decide,
   (print_capture_buf_csv_reads_in_bounds 28 500000 27 499999
     (by decide) (by decide) (by decide) (by decide)).2.2.1⟩

/-! ## C16: the frame of each command -/

/-- The frame of one dispatch: for every configuration and every collected
buffer, `read_user_input`'s dispatch
changes at most the variables of the command letter: `p` only
`CAPTURE_PIN_BASE`, `n` only `CAPTURE_PIN_COUNT`, `s` only `CAPTURE_N_SAMPLES`,
`t` only `TRIGGER`, `f` only `FREQUENCY` and `FREQ_DIV`; a line starting with
`g` or any other character changes nothing. -/
theorem dispatch_command_frame (hz : Nat) (buffer : List Char) (st : Config) :
    (buffer_at buffer 0 = 'p' →
      (dispatch_command hz buffer st).1
        = { st with CAPTURE_PIN_BASE := (dispatch_command hz buffer st).1.CAPTURE_PIN_BASE }) ∧
    (buffer_at buffer 0 = 'n' →
      (dispatch_command hz buffer st).1
        = { st with CAPTURE_PIN_COUNT := (dispatch_command hz buffer st).1.CAPTURE_PIN_COUNT }) ∧
    (buffer_at buffer 0 = 's' →
      (dispatch_command hz buffer st).1
        = { st with
            CAPTURE_N_SAMPLES := (dispatch_command hz buffer st).1.CAPTURE_N_SAMPLES }) ∧
    (buffer_at buffer 0 = 't' →
      (dispatch_command hz buffer st).1
        = { st with TRIGGER := (dispatch_command hz buffer st).1.TRIGGER }) ∧
    (buffer_at buffer 0 = 'f' →
      (dispatch_command hz buffer st).1
        = { st with
            FREQUENCY := (dispatch_command hz buffer st).1.FREQUENCY
            FREQ_DIV := (dispatch_command hz buffer st).1.FREQ_DIV }) ∧
    (buffer_at buffer 0 ≠ 'p' → buffer_at buffer 0 ≠ 'n' → buffer_at buffer 0 ≠ 's' →
      buffer_at buffer 0 ≠ 't' → buffer_at buffer 0 ≠ 'f' →
      (dispatch_command hz buffer st).1 = st) := by
  refine ⟨?_, ?_, ?_, ?_, ?_, ?_⟩
  · intro h
    rw [dispatch_command_p hz buffer st h]
    split_ifs <;> rfl
  · intro h
    rw [dispatch_command_n hz buffer st h]
    split_ifs <;> rfl
  · intro h
    rw [dispatch_command_s hz buffer st h]
    split_ifs <;> rfl
  · intro h
    rw [dispatch_command_t hz buffer st h]
    split_ifs <;> rfl
  · intro h
    rw [dispatch_command_f hz buffer st h]
  · intro hp hn hs ht hf
    exact dispatch_command_other hz buffer st hp hn hf ht hs

/-- The dispatch of the lines `p5`, `n3`, `s1000`, `t1`, `f1000`, `g` and `x`
in the default configuration: each changes exactly the fields of its letter. -/
theorem dispatch_command_frame_witness :
    (dispatch_command 125000000 "p5".toList default_config).1
      = { default_config with CAPTURE_PIN_BASE := 5 } ∧
    (dispatch_command 125000000 "n3".toList default_config).1
      = { default_config with CAPTURE_PIN_COUNT := 3 } ∧
    (dispatch_command 125000000 "s1000".toList default_config).1
      = { default_config with CAPTURE_N_SAMPLES := 1000 } ∧
    (dispatch_command 125000000 "t1".toList default_config).1
      = { default_config with TRIGGER := true } ∧
    (dispatch_command 125000000 "f1000".toList default_config).1
      = { default_config with
          FREQUENCY := 1000
          FREQ_DIV := FloatVal.div (FloatVal.of_uint 125000000) (FloatVal.of_uint 1000) } ∧
    (dispatch_command 125000000 "g".toList default_config).1 = default_config ∧
    (dispatch_command 125000000 "x".toList default_config).1 = default_config := by
  have h := dispatch_command_frame 125000000
  refine ⟨?_, ?_, ?_, ?_, ?_, ?_, ?_⟩
  · rw [(h "p5".toList default_config).1 (by decide)]
    decide
  · rw [(h "n3".toList default_config).2.1 (by decide)]
    decide
  · rw [(h "s1000".toList default_config).2.2.1 (by decide)]
    decide
  · rw [(h "t1".toList default_config).2.2.2.1 (by decide)]
    decide
  · rw [(h "f1000".toList default_config).2.2.2.2.1 (by decide)]
    decide
  · exact (h "g".toList default_config).2.2.2.2.2 (by decide) (by decide) (by decide)
      (by decide) (by decide)
  · exact (h "x".toList default_config).2.2.2.2.2 (by decide) (by decide) (by decide)
      (by decide) (by decide)

/-! ## C13: acceptance of the sample count -/

/-- On a string of digits `strtol`'s conversion reads every character. -/
theorem digits_value_eq_foldl (ds : List Char) (h : ∀ c ∈ ds, isdigit c = true) :
    ∀ acc, digits_value acc ds
      = ds.foldl (fun acc c => acc * 10 + (c.toNat - '0'.toNat)) acc := by
  induction ds with
  | nil => intro acc; rfl
  | cons c cs ih =>
    intro acc
    rw [digits_value, if_pos (h c (List.mem_cons_self c cs)), List.foldl_cons]
    exact ih (fun d hd => h d (List.mem_cons_of_mem c hd)) _

theorem to_uint_natCast (n : Nat) (h : n < 2 ^ 32) : to_uint (n : Int) = n := by
  unfold to_uint UINT_MOD
  have hlt : (n : Int) < ((2 ^ 32 : Nat) : Int) := by exact_mod_cast h
  rw [Int.emod_eq_of_lt (Int.natCast_nonneg n) hlt]
  exact Int.toNat_natCast n

/-- The whole result of an `s` command whose argument starts with a digit. -/
theorem dispatch_command_s_result (hz : Nat) (buffer : List Char) (st : Config)
    (h : buffer_at buffer 0 = 's') (hd : isdigit (buffer_at buffer 1) = true) :
    dispatch_command hz buffer st
      = if strtol (buffer.drop 1) ≤ 500000 then
          ({ st with CAPTURE_N_SAMPLES := to_uint (strtol (buffer.drop 1)) },
           [Ev.printf "Sample number is %d\n" [Arg.int (strtol (buffer.drop 1))]], false)
        else (st, [Ev.printf "Sample number is not valid\n" []], false) := by
  have hp : buffer_at buffer 0 ≠ 'p' := by rw [h]; decide
  have hn : buffer_at buffer 0 ≠ 'n' := by rw [h]; decide
  have hf : buffer_at buffer 0 ≠ 'f' := by rw [h]; decide
  have ht : buffer_at buffer 0 ≠ 't' := by rw [h]; decide
  have h0 := strtol_drop_one_nonneg buffer hd
  unfold dispatch_command
  rw [if_neg hp, if_neg hn, if_neg hf, if_neg ht, if_pos h]
  generalize strtol (buffer.drop 1) = v at h0 ⊢
  by_cases hbig : v > 500000
  · have hle : ¬ v ≤ 500000 := by omega
    simp [hd, hbig, hle]
  · have hle : v ≤ 500000 := by omega
    have hne : v ≠ -1 := by omega
    have hneg : ¬ v < 0 := by omega
    simp [hd, hbig, hle, hne, hneg]

/-- C13: for every line made of `s` and a non-empty string of at most ten
decimal digits denoting `v`, the dispatch of `read_user_input` sets
`CAPTURE_N_SAMPLES` to `v` and prints "Sample number is v" when `v ≤ 500000`,
and otherwise prints "Sample number is not valid" and leaves the configuration
unchanged; and whenever `read_user_input` returns from the default
configuration, `CAPTURE_N_SAMPLES ≤ 500000`. -/
theorem dispatch_command_sample_count :
    (∀ (hz : Nat) (st : Config) (ds : List Char),
      ds ≠ [] → (∀ c ∈ ds, isdigit c = true) → ds.length ≤ 10 →
      (decimal_value ds ≤ 500000 →
        dispatch_command hz ('s' :: ds) st
          = ({ st with CAPTURE_N_SAMPLES := decimal_value ds },
             [Ev.printf "Sample number is %d\n" [Arg.int (decimal_value ds)]], false)) ∧
      (500000 < decimal_value ds →
        dispatch_command hz ('s' :: ds) st
          = (st, [Ev.printf "Sample number is not valid\n" []], false))) ∧
    (∀ (hz : Nat) (input : List (Option Char)) (r : ReadResult),
      read_user_input hz input default_config = some r →
      r.config.CAPTURE_N_SAMPLES ≤ 500000) := by
  constructor
  · intro hz st ds hne hdig _
    obtain ⟨c, cs, rfl⟩ := List.exists_cons_of_ne_nil hne
    have hb0 : buffer_at ('s' :: c :: cs) 0 = 's' := rfl
    have hb1 : isdigit (buffer_at ('s' :: c :: cs) 1) = true :=
      hdig c (List.mem_cons_self c cs)
    have hval : digits_value 0 (c :: cs) = decimal_value (c :: cs) :=
      digits_value_eq_foldl (c :: cs) hdig 0
    have hstr : strtol (('s' :: c :: cs).drop 1)
        = min LONG_MAX (decimal_value (c :: cs) : Int) := by
      rw [strtol_drop_one _ hb1]
      show min LONG_MAX ((digits_value 0 (c :: cs) : Nat) : Int) = _
      rw [hval]
    rw [dispatch_command_s_result hz _ st hb0 hb1, hstr]
    constructor
    · intro hle
      have hmin : min LONG_MAX (decimal_value (c :: cs) : Int) = (decimal_value (c :: cs) : Int) := by
        apply min_eq_right
        have : (decimal_value (c :: cs) : Int) ≤ 500000 := by exact_mod_cast hle
        unfold LONG_MAX
        omega
      rw [hmin, if_pos (by exact_mod_cast hle), to_uint_natCast _ (by omega)]
    · intro hgt
      have hnot : ¬ min LONG_MAX (decimal_value (c :: cs) : Int) ≤ 500000 := by
        have h1 : (500000 : Int) < (decimal_value (c :: cs) : Int) := by exact_mod_cast hgt
        have h2 : (500000 : Int) < LONG_MAX := by decide
        have := lt_min h2 h1
        omega
      rw [if_neg hnot]
  · intro hz input r h
    exact (read_user_input_from_in_range hz input [] default_config [] r (by decide) h).2.2

/-- C13 on the lines `s500000`, accepted, and `s500001` and `s9999999999`,
rejected, in the default configuration. -/
theorem dispatch_command_sample_count_witness :
    ("500000".toList ≠ [] ∧ (∀ c ∈ "500000".toList, isdigit c = true) ∧
      "500000".toList.length ≤ 10 ∧ decimal_value "500000".toList = 500000) ∧
    dispatch_command 125000000 ('s' :: "500000".toList) default_config
      = ({ default_config with CAPTURE_N_SAMPLES := decimal_value "500000".toList },
         [Ev.printf "Sample number is %d\n" [Arg.int (decimal_value "500000".toList)]],
         false) ∧
    (decimal_value "500001".toList = 500001 ∧
      dispatch_command 125000000 ('s' :: "500001".toList) default_config
        = (default_config, [Ev.printf "Sample number is not valid\n" []], false)) ∧
    (decimal_value "9999999999".toList = 9999999999 ∧
      dispatch_command 125000000 ('s' :: "9999999999".toList) default_config
        = (default_config, [Ev.printf "Sample number is not valid\n" []], false)) :=
  ⟨by decide,
   (dispatch_command_sample_count.1 125000000 default_config "500000".toList
     (by decide) (by decide) (by decide)).1 (by decide),
   ⟨by decide,
    (dispatch_command_sample_count.1 125000000 default_config "500001".toList
      (by decide) (by decide) (by decide)).2 (by decide)⟩,
   ⟨by decide,
    (dispatch_command_sample_count.1 125000000 default_config "9999999999".toList
      (by decide) (by decide) (by decide)).2 (by decide)⟩⟩

/-! ## C14: rows are emitted one per sample, in order -/

/-- The text of the first `j + 1` rows starts the text of any larger count. -/
theorem render_rows_prefix (b : Nat → Nat → Bool) (pin_count j : Nat) :
    ∀ d, ∃ rest, render_rows b pin_count (j + 1 + d) = render_rows b pin_count (j + 1) ++ rest := by
  intro d
  induction d with
  | zero => exact ⟨[], by rw [Nat.add_zero, List.append_nil]⟩
  | succ d ih =>
    obtain ⟨rest, hrest⟩ := ih
    refine ⟨rest ++ render_row b pin_count (j + 1 + d), ?_⟩
    rw [← Nat.add_assoc, render_rows_succ, hrest, List.append_assoc]

/-- Row `j` of the text is the `j`-th block of `2 * pin_count + 1` characters. -/
theorem render_rows_segment (b : Nat → Nat → Bool) (pin_count n j : Nat) (hj : j < n) :
    ((render_rows b pin_count n).drop (j * (2 * pin_count + 1))).take (2 * pin_count + 1)
      = render_row b pin_count j := by
  obtain ⟨d, rfl⟩ : ∃ d, n = j + 1 + d := ⟨n - (j + 1), by omega⟩
  obtain ⟨rest, hrest⟩ := render_rows_prefix b pin_count j d
  rw [hrest, render_rows_succ, List.append_assoc,
    List.drop_left' (render_rows_length b pin_count j),
    List.take_left' (render_row_length b pin_count j)]

/-- The events of the decoder are writes of text and LED toggles only. -/
theorem print_capture_buf_csv_events (buf : List Nat) (pin_base pin_count n_samples : Nat) :
    ∀ e ∈ print_capture_buf_csv buf pin_base pin_count n_samples,
      (∃ fmt, e = Ev.printf fmt []) ∨ (∃ v, e = Ev.gpio_put LED_PIN v) := by
  intro e he
  unfold print_capture_buf_csv at he
  obtain ⟨s, _, hs⟩ := List.mem_flatMap.mp he
  unfold print_sample at hs
  rcases List.mem_append.mp hs with hs | hs
  · rcases List.mem_append.mp hs with hs | hs
    · unfold print_pins at hs
      obtain ⟨p, _, hp⟩ := List.mem_flatMap.mp hs
      simp only [List.mem_cons, List.mem_singleton, List.not_mem_nil, or_false] at hp
      rcases hp with rfl | rfl
      · exact Or.inl ⟨_, rfl⟩
      · exact Or.inl ⟨_, rfl⟩
    · unfold blink at hs
      split_ifs at hs
      · rw [List.mem_singleton] at hs
        exact Or.inr ⟨true, hs⟩
      · rw [List.mem_singleton] at hs
        exact Or.inr ⟨false, hs⟩
      · exact absurd hs (List.not_mem_nil e)
  · rw [List.mem_singleton] at hs
    exact Or.inl ⟨_, hs⟩

/-- C14 (amended): for every buffer, pin count and `k`, the text for
`n_samples = k + 1` is the text for `n_samples = k` followed by exactly one
further row of `2 * pin_count + 1` characters, the row of sample `k`; when
`(k + 1) * pin_count ≤ 2 ^ 32` that row depends only on the buffer bits with
global index in `[k*pin_count, (k+1)*pin_count)`; the `j`-th row of any output
is the row of sample `j`; and the decoder only prints and toggles the LED. -/
theorem print_capture_buf_csv_prefix (buf : List Nat) (pin_base pin_count k : Nat) :
    stdout_text (print_capture_buf_csv buf pin_base pin_count (k + 1))
      = stdout_text (print_capture_buf_csv buf pin_base pin_count k)
          ++ stdout_text (print_sample buf pin_count k) ∧
    (stdout_text (print_sample buf pin_count k)).length = 2 * pin_count + 1 ∧
    ((k + 1) * pin_count ≤ 2 ^ 32 → ∀ buf2 : List Nat,
      (∀ i, k * pin_count ≤ i → i < (k + 1) * pin_count →
        buffer_bit buf i = buffer_bit buf2 i) →
      stdout_text (print_sample buf pin_count k)
        = stdout_text (print_sample buf2 pin_count k)) ∧
    (∀ n j, j < n →
      ((stdout_text (print_capture_buf_csv buf pin_base pin_count n)).drop
          (j * (2 * pin_count + 1))).take (2 * pin_count + 1)
        = stdout_text (print_sample buf pin_count j)) ∧
    (∀ n, ∀ e ∈ print_capture_buf_csv buf pin_base pin_count n,
      (∃ fmt, e = Ev.printf fmt []) ∨ (∃ v, e = Ev.gpio_put LED_PIN v)) := by
  refine ⟨?_, ?_, ?_, ?_, ?_⟩
  · rw [stdout_text_print_capture_buf_csv, stdout_text_print_capture_buf_csv,
      stdout_text_print_sample, render_rows_succ]
  · rw [stdout_text_print_sample, render_row_length]
  · intro hfit buf2 hagree
    rw [stdout_text_print_sample, stdout_text_print_sample]
    apply render_row_congr
    intro p hp
    have hidx : bit_index p k pin_count = p + k * pin_count :=
      bit_index_eq p k pin_count (k + 1) hp (Nat.lt_succ_self k)
        (by rw [Nat.mul_comm]; exact hfit)
    have hlt : p + k * pin_count < (k + 1) * pin_count := by
      rw [Nat.add_mul, Nat.one_mul]
      omega
    have h := hagree (p + k * pin_count) (Nat.le_add_left _ _) hlt
    unfold buffer_bit at h
    show level buf p k pin_count = level buf2 p k pin_count
    rw [level_eq_testBit, level_eq_testBit, hidx]
    exact h
  · intro n j hj
    rw [stdout_text_print_capture_buf_csv, stdout_text_print_sample]
    exact render_rows_segment _ pin_count n j hj
  · intro n
    exact print_capture_buf_csv_events buf pin_base pin_count n

/-- C14 at the specification's scenario: with two pins and the buffer
`0b101101`, the third row `"0,1,\n"` is appended to the two-row text, is the
third block of the three-row text, and is the same for the buffer `0b100000`,
which agrees with it on bits 4 and 5. -/
theorem print_capture_buf_csv_prefix_witness :
    stdout_text (print_capture_buf_csv [0b101101] 17 2 3)
      = stdout_text (print_capture_buf_csv [0b101101] 17 2 2) ++ "0,1,\n".toList ∧
    ((2 + 1) * 2 ≤ 2 ^ 32 ∧
      (∀ i, 2 * 2 ≤ i → i < (2 + 1) * 2 →
        buffer_bit [0b101101] i = buffer_bit [0b100000] i) ∧
      stdout_text (print_sample [0b101101] 2 2) = stdout_text (print_sample [0b100000] 2 2)) ∧
    ((2 < 3) ∧
      ((stdout_text (print_capture_buf_csv [0b101101] 17 2 3)).drop (2 * (2 * 2 + 1))).take
          (2 * 2 + 1)
        = stdout_text (print_sample [0b101101] 2 2)) := by
  have h := print_capture_buf_csv_prefix [0b101101] 17 2 2
  have hag : ∀ i, 2 * 2 ≤ i → i < (2 + 1) * 2 →
      buffer_bit [0b101101] i = buffer_bit [0b100000] i := by
    intro i h1 h2
    have hi : i = 4 ∨ i = 5 := by omega
    rcases hi with rfl | rfl <;> decide
  refine ⟨?_, ⟨by decide, hag, h.2.2.1 (by decide) [0b100000] hag⟩,
    ⟨by decide, h.2.2.2.1 3 2 (by decide)⟩⟩
  rw [h.1]
  decide

/-- C14 as stated fails when the index wraps: with 32 pins the row of sample
`2 ^ 27` is read at bit indices 0 to 31, so two buffers that agree on every bit
with index in `[2^27 * 32, (2^27 + 1) * 32)` but differ in bit 0 give different
rows. -/
theorem print_sample_row_wraps :
    (∀ i, 2 ^ 27 * 32 ≤ i → i < (2 ^ 27 + 1) * 32 →
      buffer_bit (1 :: List.replicate (2 ^ 27) 0) i
        = buffer_bit (0 :: List.replicate (2 ^ 27) 0) i) ∧
    stdout_text (print_sample (1 :: List.replicate (2 ^ 27) 0) 32 (2 ^ 27))
      ≠ stdout_text (print_sample (0 :: List.replicate (2 ^ 27) 0) 32 (2 ^ 27)) := by
  constructor
  · intro i h1 h2
    have hw : i / 32 = 134217728 := by
      norm_num at h1 h2
      omega
    unfold buffer_bit
    rw [getD_cons_replicate_zero, getD_cons_replicate_zero, hw]
    rfl
  · intro h
    rw [stdout_text_print_sample, stdout_text_print_sample] at h
    have hhead := congrArg List.head? h
    rw [render_row_head _ _ _ (by decide), render_row_head _ _ _ (by decide)] at hhead
    have hl1 : level (1 :: List.replicate (2 ^ 27) 0) 0 (2 ^ 27) 32 = true := by
      rw [level_eq_testBit, getD_cons_replicate_zero, bit_index_wraps]
      decide
    have hl2 : level (0 :: List.replicate (2 ^ 27) 0) 0 (2 ^ 27) 32 = false := by
      rw [level_eq_testBit, getD_cons_replicate_zero, bit_index_wraps]
      decide
    simp only [hl1, hl2] at hhead
    exact absurd hhead (by decide)

/-! ## C12: install and release in the loop of `main` -/

theorem slot_run_append (stale : Nat) (xs ys : List Ev) :
    ∀ slot, slot_run stale (xs ++ ys) slot
      = (slot_run stale xs slot).bind (slot_run stale ys) := by
  induction xs with
  | nil => intro slot; rfl
  | cons e xs ih =>
    intro slot
    rw [List.cons_append, slot_run, slot_run]
    cases slot_step stale slot e with
    | none => rfl
    | some next => exact ih next

theorem slot_step_of_not_touches (stale : Nat) (slot : Option (Nat × Nat)) (e : Ev)
    (h : e.touches_slot = false) : slot_step stale slot e = some slot := by
  cases e <;> first
    | rfl
    | exact absurd h (by simp [Ev.touches_slot, Ev.is_install, Ev.is_release])

/-- Events that neither install nor release leave the slot as it is. -/
theorem slot_run_of_not_touches (stale : Nat) (xs : List Ev)
    (h : ∀ e ∈ xs, e.touches_slot = false) :
    ∀ slot, slot_run stale xs slot = some slot := by
  induction xs with
  | nil => intro slot; rfl
  | cons e xs ih =>
    intro slot
    rw [slot_run, slot_step_of_not_touches stale slot e (h e (List.mem_cons_self e xs))]
    exact ih (fun d hd => h d (List.mem_cons_of_mem e hd)) slot

/-- The command dispatch only prints. -/
theorem dispatch_command_not_touches (hz : Nat) (buffer : List Char) (st : Config) :
    ∀ e ∈ (dispatch_command hz buffer st).2.1, e.touches_slot = false := by
  have h : ((dispatch_command hz buffer st).2.1.all fun e => !e.touches_slot) = true := by
    unfold dispatch_command
    dsimp only
    split_ifs <;> rfl
  intro e he
  have := List.all_eq_true.mp h e he
  simpa using this

/-- The events of `read_user_input` neither install nor release. -/
theorem read_user_input_from_not_touches (hz : Nat) (input : List (Option Char)) :
    ∀ (buffer : List Char) (st : Config) (evs : List Ev) (r : ReadResult),
      (∀ e ∈ evs, e.touches_slot = false) →
      read_user_input_from hz input buffer st evs = some r →
      ∀ e ∈ r.events, e.touches_slot = false := by
  induction input with
  | nil =>
    intro buffer st evs r _ h
    simp [read_user_input_from] at h
  | cons x rest ih =>
    intro buffer st evs r hevs h
    have hnl : ∀ e ∈ evs ++ [Ev.printf "\n" []] ++ (dispatch_command hz buffer st).2.1,
        e.touches_slot = false := by
      intro e he
      rcases List.mem_append.mp he with he | he
      · rcases List.mem_append.mp he with he | he
        · exact hevs e he
        · rw [List.mem_singleton] at he
          rw [he]
          rfl
      · exact dispatch_command_not_touches hz buffer st e he
    cases x with
    | none =>
      rw [read_user_input_from] at h
      exact ih buffer st evs r hevs h
    | some c =>
      have hfull : ∀ e ∈ evs ++ [Ev.printf "%c" [Arg.int c.toNat], Ev.printf "\n" []]
          ++ (dispatch_command hz (buffer ++ [c]) st).2.1, e.touches_slot = false := by
        intro e he
        rcases List.mem_append.mp he with he | he
        · rcases List.mem_append.mp he with he | he
          · exact hevs e he
          · simp only [List.mem_cons, List.mem_singleton, List.not_mem_nil, or_false] at he
            rcases he with rfl | rfl <;> rfl
        · exact dispatch_command_not_touches hz _ st e he
      have hecho : ∀ e ∈ evs ++ [Ev.printf "%c" [Arg.int c.toNat]],
          e.touches_slot = false := by
        intro e he
        rcases List.mem_append.mp he with he | he
        · exact hevs e he
        · rw [List.mem_singleton] at he
          rw [he]
          rfl
      rw [read_user_input_from] at h
      dsimp only at h
      split_ifs at h
      · rw [Option.some.injEq] at h
        subst h
        exact hnl
      · exact ih _ _ _ r hnl h
      · rw [Option.some.injEq] at h
        subst h
        exact hfull
      · exact ih _ _ _ r hfull h
      · exact ih _ _ _ r hecho h

/-- The decoder neither installs nor releases. -/
theorem print_capture_buf_csv_not_touches (buf : List Nat) (pin_base pin_count n : Nat) :
    ∀ e ∈ print_capture_buf_csv buf pin_base pin_count n, e.touches_slot = false := by
  intro e he
  rcases print_capture_buf_csv_events buf pin_base pin_count n e he with ⟨_, rfl⟩ | ⟨_, rfl⟩
    <;> rfl

/-- The part of an iteration after `read_user_input`, split at the install, the
call of the decoder and the release. -/
theorem capture_cycle_eq (hz : Nat) (env : CycleEnv) (st : Config) :
    capture_cycle hz env st
      = ([Ev.malloc (capture_buf_memory_size st.CAPTURE_PIN_COUNT st.CAPTURE_N_SAMPLES)
            env.malloc_result]
          ++ (if env.malloc_result = 0 then
                [Ev.printf "Error allocating capture buffer size %d\n"
                  [Arg.uint (capture_buf_memory_size st.CAPTURE_PIN_COUNT
                    st.CAPTURE_N_SAMPLES)]]
              else []))
        ++ [Ev.pio_add_program (Instr.in_pins st.CAPTURE_PIN_COUNT) 1 env.program_offset]
        ++ ([Ev.pio_sm_init env.program_offset
              (capture_sm_config st.CAPTURE_PIN_BASE st.FREQ_DIV env.program_offset),
             Ev.printf "Clock speed is   %d\n" [Arg.uint hz],
             Ev.printf "Capture speed is %f.2\n"
               [Arg.float (FloatVal.div (FloatVal.of_uint hz) st.FREQ_DIV)],
             Ev.printf "Arming trigger\n" [],
             Ev.gpio_put LED_PIN true]
            ++ logic_analyser_arm env.malloc_result
                 (capture_size_words st.CAPTURE_PIN_COUNT st.CAPTURE_N_SAMPLES)
                 st.CAPTURE_PIN_BASE st.TRIGGER
            ++ [Ev.dma_channel_wait_for_finish_blocking, Ev.gpio_put LED_PIN false])
        ++ [Ev.call_print_capture_buf_csv env.malloc_result st.CAPTURE_PIN_BASE
              st.CAPTURE_PIN_COUNT st.CAPTURE_N_SAMPLES]
        ++ print_capture_buf_csv env.captured st.CAPTURE_PIN_BASE st.CAPTURE_PIN_COUNT
             st.CAPTURE_N_SAMPLES
        ++ [Ev.pio_remove_program ProgramPtr.dangling env.program_offset,
            Ev.free env.malloc_result] := by
  simp only [capture_cycle, logic_analyser_init, logic_analyser_init_globals,
    List.append_assoc, List.cons_append, List.nil_append, List.singleton_append]

theorem capture_cycle_pre_not_touches (env : CycleEnv) (st : Config) :
    ∀ e ∈ [Ev.malloc (capture_buf_memory_size st.CAPTURE_PIN_COUNT st.CAPTURE_N_SAMPLES)
            env.malloc_result]
          ++ (if env.malloc_result = 0 then
                [Ev.printf "Error allocating capture buffer size %d\n"
                  [Arg.uint (capture_buf_memory_size st.CAPTURE_PIN_COUNT
                    st.CAPTURE_N_SAMPLES)]]
              else []),
      e.touches_slot = false := by
  intro e he
  split_ifs at he <;>
    simp only [List.cons_append, List.nil_append, List.append_nil, List.mem_cons,
      List.mem_singleton, List.not_mem_nil, or_false] at he
  · rcases he with rfl | rfl <;> rfl
  · rw [he]
    rfl

theorem capture_cycle_mid_not_touches (hz : Nat) (env : CycleEnv) (st : Config) :
    ∀ e ∈ [Ev.pio_sm_init env.program_offset
              (capture_sm_config st.CAPTURE_PIN_BASE st.FREQ_DIV env.program_offset),
             Ev.printf "Clock speed is   %d\n" [Arg.uint hz],
             Ev.printf "Capture speed is %f.2\n"
               [Arg.float (FloatVal.div (FloatVal.of_uint hz) st.FREQ_DIV)],
             Ev.printf "Arming trigger\n" [],
             Ev.gpio_put LED_PIN true]
            ++ logic_analyser_arm env.malloc_result
                 (capture_size_words st.CAPTURE_PIN_COUNT st.CAPTURE_N_SAMPLES)
                 st.CAPTURE_PIN_BASE st.TRIGGER
            ++ [Ev.dma_channel_wait_for_finish_blocking, Ev.gpio_put LED_PIN false],
      e.touches_slot = false := by
  intro e he
  simp only [logic_analyser_arm, List.cons_append, List.nil_append, List.mem_cons,
    List.mem_singleton, List.not_mem_nil, or_false] at he
  rcases he with rfl | rfl | rfl | rfl | rfl | rfl | rfl | rfl | rfl | rfl | rfl | rfl <;> rfl

/-- From a free slot, the part of an iteration after `read_user_input` keeps
the discipline and frees the slot exactly when the dead `capture_prog` still
reads the length 1 that was installed. -/
theorem slot_run_capture_cycle (stale : Nat) (hz : Nat) (env : CycleEnv) (st : Config) :
    slot_run stale (capture_cycle hz env st) none
      = if stale = 1 then some none else none := by
  have hadd : slot_run stale
      [Ev.pio_add_program (Instr.in_pins st.CAPTURE_PIN_COUNT) 1 env.program_offset] none
      = some (some (env.program_offset, 1)) := rfl
  have hcall : slot_run stale
      [Ev.call_print_capture_buf_csv env.malloc_result st.CAPTURE_PIN_BASE
        st.CAPTURE_PIN_COUNT st.CAPTURE_N_SAMPLES] (some (env.program_offset, 1))
      = some (some (env.program_offset, 1)) := rfl
  have hrel : slot_run stale
      [Ev.pio_remove_program ProgramPtr.dangling env.program_offset, Ev.free env.malloc_result]
      (some (env.program_offset, 1)) = if stale = 1 then some none else none := by
    by_cases hs : stale = 1
    · subst hs
      simp [slot_run, slot_step, ProgramPtr.read_length]
    · have hne : ¬ (1 = stale) := fun h => hs h.symm
      simp [slot_run, slot_step, ProgramPtr.read_length, hs, hne]
  rw [capture_cycle_eq, slot_run_append, slot_run_append, slot_run_append, slot_run_append,
    slot_run_append, slot_run_of_not_touches _ _ (capture_cycle_pre_not_touches env st),
    Option.some_bind, hadd, Option.some_bind,
    slot_run_of_not_touches _ _ (capture_cycle_mid_not_touches hz env st), Option.some_bind,
    hcall, Option.some_bind,
    slot_run_of_not_touches _ _ (print_capture_buf_csv_not_touches _ _ _ _), Option.some_bind,
    hrel]

/-- An iteration of `main`, from a free slot: the same. -/
theorem slot_run_main_cycle (stale : Nat) (hz : Nat) (env : CycleEnv)
    (input : List (Option Char)) (st : Config) (r : ReadResult)
    (h : main_cycle hz env input st = some r) :
    slot_run stale r.events none = if stale = 1 then some none else none := by
  unfold main_cycle at h
  cases hr : read_user_input hz input st with
  | none => rw [hr] at h; exact absurd h (by simp)
  | some r0 =>
    rw [hr] at h
    simp only [Option.some.injEq] at h
    subst h
    have hread := read_user_input_from_not_touches hz input [] st [] r0
      (fun e he => absurd he (List.not_mem_nil e)) hr
    have hled : ∀ e ∈ [Ev.gpio_put LED_PIN true, Ev.sleep_ms 1000, Ev.gpio_put LED_PIN false],
        e.touches_slot = false := by
      intro e he
      simp only [List.mem_cons, List.mem_singleton, List.not_mem_nil, or_false] at he
      rcases he with rfl | rfl | rfl <;> rfl
    show slot_run stale ([Ev.gpio_put LED_PIN true, Ev.sleep_ms 1000, Ev.gpio_put LED_PIN false]
      ++ r0.events ++ capture_cycle hz env r0.config) none = _
    rw [slot_run_append, slot_run_append, slot_run_of_not_touches _ _ hled,
      Option.some_bind, slot_run_of_not_touches _ _ hread, Option.some_bind,
      slot_run_capture_cycle]

/-- If the dead `capture_prog` still reads length 1 at every release, the whole
observed loop keeps the discipline and ends with a free slot. -/
theorem slot_run_main_loop_of_stale_one (hz : Nat) (envs : List CycleEnv) :
    ∀ (input : List (Option Char)) (st : Config),
      slot_run 1 (main_loop hz envs input st) none = some none := by
  induction envs with
  | nil => intro input st; rfl
  | cons env envs ih =>
    intro input st
    rw [main_loop]
    cases hc : main_cycle hz env input st with
    | none => rfl
    | some r =>
      show slot_run 1 (r.events ++ main_loop hz envs r.rest r.config) none = some none
      rw [slot_run_append, slot_run_main_cycle 1 hz env input st r hc]
      exact ih r.rest r.config

/-- If the dead `capture_prog` reads anything else, the discipline is broken at
the release of the first iteration that completes. -/
theorem slot_run_main_loop_of_stale_ne_one (stale : Nat) (hstale : stale ≠ 1) (hz : Nat)
    (env : CycleEnv) (envs : List CycleEnv) (input : List (Option Char)) (st : Config)
    (r : ReadResult) (h : main_cycle hz env input st = some r) :
    slot_run stale (main_loop hz (env :: envs) input st) none = none := by
  rw [main_loop, h]
  show slot_run stale (r.events ++ main_loop hz envs r.rest r.config) none = none
  rw [slot_run_append, slot_run_main_cycle stale hz env input st r h, if_neg hstale]
  rfl

theorem countP_of_not_touches (xs : List Ev) (h : ∀ e ∈ xs, e.touches_slot = false) :
    xs.countP Ev.is_install = 0 ∧ xs.countP Ev.is_release = 0 := by
  constructor
  · rw [List.countP_eq_zero]
    intro e he hp
    have := h e he
    simp [Ev.touches_slot, hp] at this
  · rw [List.countP_eq_zero]
    intro e he hp
    have := h e he
    simp [Ev.touches_slot, hp] at this


/-- Every completed iteration of the loop calls `pio_add_program` as often as
`pio_remove_program`, so the calls are balanced over any observed run. -/
theorem main_loop_calls_balanced (hz : Nat) (envs : List CycleEnv) :
    ∀ (input : List (Option Char)) (st : Config),
      (main_loop hz envs input st).countP Ev.is_install
        = (main_loop hz envs input st).countP Ev.is_release := by
  induction envs with
  | nil => intro input st; rfl
  | cons env envs ih =>
    intro input st
    rw [main_loop]
    cases hc : main_cycle hz env input st with
    | none => rfl
    | some r =>
      show List.countP Ev.is_install (r.events ++ main_loop hz envs r.rest r.config)
        = List.countP Ev.is_release (r.events ++ main_loop hz envs r.rest r.config)
      unfold main_cycle at hc
      cases hr : read_user_input hz input st with
      | none => rw [hr] at hc; exact absurd hc (by simp)
      | some r0 =>
        rw [hr] at hc
        simp only [Option.some.injEq] at hc
        subst hc
        have hread := read_user_input_from_not_touches hz input [] st [] r0
          (fun e he => absurd he (List.not_mem_nil e)) hr
        have hled : ∀ e ∈ [Ev.gpio_put LED_PIN true, Ev.sleep_ms 1000,
            Ev.gpio_put LED_PIN false], e.touches_slot = false := by
          intro e he
          simp only [List.mem_cons, List.mem_singleton, List.not_mem_nil, or_false] at he
          rcases he with rfl | rfl | rfl <;> rfl
        have hcpre := capture_cycle_pre_not_touches env r0.config
        have hmid := capture_cycle_mid_not_touches hz env r0.config
        have hcsv := print_capture_buf_csv_not_touches env.captured
          r0.config.CAPTURE_PIN_BASE r0.config.CAPTURE_PIN_COUNT r0.config.CAPTURE_N_SAMPLES
        show List.countP Ev.is_install (([Ev.gpio_put LED_PIN true, Ev.sleep_ms 1000,
            Ev.gpio_put LED_PIN false] ++ r0.events ++ capture_cycle hz env r0.config)
              ++ main_loop hz envs r0.rest r0.config)
          = List.countP Ev.is_release (([Ev.gpio_put LED_PIN true, Ev.sleep_ms 1000,
            Ev.gpio_put LED_PIN false] ++ r0.events ++ capture_cycle hz env r0.config)
              ++ main_loop hz envs r0.rest r0.config)
        rw [capture_cycle_eq]
        simp only [List.countP_append, (countP_of_not_touches _ hled).1,
          (countP_of_not_touches _ hread).1, (countP_of_not_touches _ hcpre).1,
          (countP_of_not_touches _ hmid).1, (countP_of_not_touches _ hcsv).1,
          (countP_of_not_touches _ hled).2,
          (countP_of_not_touches _ hread).2, (countP_of_not_touches _ hcpre).2,
          (countP_of_not_touches _ hmid).2, (countP_of_not_touches _ hcsv).2,
          ih r0.rest r0.config]
        rfl

/-- C12 at the failing input, any iteration of `main` that `read_user_input`
lets start: the iteration calls `pio_add_program` once and `pio_remove_program`
once, with the offset of that install, after the decoder and just before
`free`; but the program argument of that release is `capture_prog_2`, a
dangling pointer to the dead local of `logic_analyser_init`.  So the install is
released, and the slot free for the next iteration, exactly when the dead
object still reads the installed length 1, which the program does not
determine; for any other value the discipline is broken at the release. -/
theorem main_cycle_release_dangling (hz : Nat) (env : CycleEnv)
    (input : List (Option Char)) (st : Config) (r : ReadResult)
    (h : main_cycle hz env input st = some r) :
    (∃ pre mid,
      (∀ e ∈ pre, e.touches_slot = false) ∧ (∀ e ∈ mid, e.touches_slot = false) ∧
      r.events = pre
        ++ [Ev.pio_add_program (Instr.in_pins r.config.CAPTURE_PIN_COUNT) 1
              env.program_offset]
        ++ mid
        ++ [Ev.call_print_capture_buf_csv env.malloc_result r.config.CAPTURE_PIN_BASE
              r.config.CAPTURE_PIN_COUNT r.config.CAPTURE_N_SAMPLES]
        ++ print_capture_buf_csv env.captured r.config.CAPTURE_PIN_BASE
             r.config.CAPTURE_PIN_COUNT r.config.CAPTURE_N_SAMPLES
        ++ [Ev.pio_remove_program ProgramPtr.dangling env.program_offset,
            Ev.free env.malloc_result]) ∧
    r.events.countP Ev.is_install = 1 ∧ r.events.countP Ev.is_release = 1 ∧
    (∀ stale_length : Nat,
      slot_run stale_length r.events none = if stale_length = 1 then some none else none) := by
  have hslot := fun stale => slot_run_main_cycle stale hz env input st r h
  unfold main_cycle at h
  cases hr : read_user_input hz input st with
  | none => rw [hr] at h; exact absurd h (by simp)
  | some r0 =>
    rw [hr] at h
    simp only [Option.some.injEq] at h
    subst h
    have hread := read_user_input_from_not_touches hz input [] st [] r0
      (fun e he => absurd he (List.not_mem_nil e)) hr
    have hled : ∀ e ∈ [Ev.gpio_put LED_PIN true, Ev.sleep_ms 1000,
        Ev.gpio_put LED_PIN false], e.touches_slot = false := by
      intro e he
      simp only [List.mem_cons, List.mem_singleton, List.not_mem_nil, or_false] at he
      rcases he with rfl | rfl | rfl <;> rfl
    have hcpre := capture_cycle_pre_not_touches env r0.config
    have hpre : ∀ e ∈ [Ev.gpio_put LED_PIN true, Ev.sleep_ms 1000, Ev.gpio_put LED_PIN false]
        ++ r0.events
        ++ ([Ev.malloc (capture_buf_memory_size r0.config.CAPTURE_PIN_COUNT
                r0.config.CAPTURE_N_SAMPLES) env.malloc_result]
            ++ (if env.malloc_result = 0 then
                  [Ev.printf "Error allocating capture buffer size %d\n"
                    [Arg.uint (capture_buf_memory_size r0.config.CAPTURE_PIN_COUNT
                      r0.config.CAPTURE_N_SAMPLES)]]
                else [])),
        e.touches_slot = false := by
      intro e he
      rcases List.mem_append.mp he with he | he
      · rcases List.mem_append.mp he with he | he
        · exact hled e he
        · exact hread e he
      · exact hcpre e he
    have hmid := capture_cycle_mid_not_touches hz env r0.config
    have hcsv := print_capture_buf_csv_not_touches env.captured r0.config.CAPTURE_PIN_BASE
      r0.config.CAPTURE_PIN_COUNT r0.config.CAPTURE_N_SAMPLES
    refine ⟨⟨_, _, hpre, hmid, ?_⟩, ?_, ?_, hslot⟩
    · show [Ev.gpio_put LED_PIN true, Ev.sleep_ms 1000, Ev.gpio_put LED_PIN false]
        ++ r0.events ++ capture_cycle hz env r0.config = _
      rw [capture_cycle_eq]
      simp only [List.append_assoc]
    · show List.countP Ev.is_install ([Ev.gpio_put LED_PIN true, Ev.sleep_ms 1000,
        Ev.gpio_put LED_PIN false] ++ r0.events ++ capture_cycle hz env r0.config) = 1
      rw [capture_cycle_eq]
      simp only [List.countP_append, (countP_of_not_touches _ hled).1,
        (countP_of_not_touches _ hread).1, (countP_of_not_touches _ hcpre).1,
        (countP_of_not_touches _ hmid).1, (countP_of_not_touches _ hcsv).1]
      rfl
    · show List.countP Ev.is_release ([Ev.gpio_put LED_PIN true, Ev.sleep_ms 1000,
        Ev.gpio_put LED_PIN false] ++ r0.events ++ capture_cycle hz env r0.config) = 1
      rw [capture_cycle_eq]
      simp only [List.countP_append, (countP_of_not_touches _ hled).2,
        (countP_of_not_touches _ hread).2, (countP_of_not_touches _ hcpre).2,
        (countP_of_not_touches _ hmid).2, (countP_of_not_touches _ hcsv).2]
      rfl

/-- C12 on the first iteration after the user types `g`, with the program
installed at offset 31: the iteration completes, its one release passes the
dangling pointer, the slot is freed if the dead object reads 1, and the
discipline is broken if it reads 0. -/
theorem main_cycle_release_dangling_witness :
    ∃ r, main_cycle 125000000 ⟨0x20001000, 31, []⟩ (typed "g\r") default_config = some r ∧
      r.config = default_config ∧
      r.events.countP Ev.is_release = 1 ∧
      Ev.pio_remove_program ProgramPtr.dangling 31 ∈ r.events ∧
      slot_run 1 r.events none = some none ∧
      slot_run 0 r.events none = none := by
  obtain ⟨r, hr, hc⟩ := Option.map_eq_some'.mp
    (by decide : (main_cycle 125000000 ⟨0x20001000, 31, []⟩ (typed "g\r")
        default_config).map ReadResult.config = some default_config)
  obtain ⟨⟨pre, mid, _, _, hev⟩, _, hrel, hslot⟩ :=
    main_cycle_release_dangling 125000000 ⟨0x20001000, 31, []⟩ (typed "g\r")
      default_config r hr
  refine ⟨r, hr, hc, hrel, ?_, hslot 1, hslot 0⟩
  rw [hev]
  simp
/-! ## C17: the line reader stays inside its buffer -/

theorem LineState.ok_init : LineState.init.ok := by
  refine ⟨by decide, by decide, rfl, ?_⟩
  intro i _
  unfold LineState.init BUFFER_MAX
  rw [List.getD_eq_getElem?_getD, List.getElem?_replicate]
  split <;> rfl

/-- Storing a character at `bufpos < BUFFER_MAX` keeps the loop's invariant. -/
theorem LineState.ok_store (s : LineState) (c : Char) (h : s.ok) (hpos : s.bufpos < BUFFER_MAX) :
    LineState.ok
      { buffer := s.buffer.set s.bufpos c
        bufpos := s.bufpos + 1
        writes := s.writes ++ [s.bufpos] } := by
  obtain ⟨_, hlen, hw, hnul⟩ := h
  refine ⟨hpos, by rw [List.length_set]; exact hlen, ?_, ?_⟩
  · show s.writes ++ [s.bufpos] = List.range (s.bufpos + 1)
    rw [List.range_succ, hw]
  · intro i hi
    show (s.buffer.set s.bufpos c).getD i (Char.ofNat 0) = Char.ofNat 0
    have hne : s.bufpos ≠ i := by
      have : s.bufpos + 1 ≤ i := hi
      omega
    rw [List.getD_eq_getElem?_getD, List.getElem?_set_ne hne, ← List.getD_eq_getElem?_getD]
    exact hnul i (by have : s.bufpos + 1 ≤ i := hi; omega)

/-- From a state that satisfies the invariant with room for a character, the
loop is left in a state that satisfies it; it is left with `bufpos` below
`BUFFER_MAX` when the stream ends first. -/
theorem collect_line_ok (input : List (Option Char)) :
    ∀ s : LineState, s.ok → s.bufpos < BUFFER_MAX →
      (collect_line input s).1.ok ∧
      ((collect_line input s).2 = none → (collect_line input s).1.bufpos < BUFFER_MAX) := by
  induction input with
  | nil => intro s h hpos; exact ⟨h, fun _ => hpos⟩
  | cons x rest ih =>
    intro s h hpos
    cases x with
    | none =>
      rw [collect_line]
      exact ih s h hpos
    | some c =>
      rw [collect_line]
      split_ifs with hnl hfull
      · exact ⟨h, fun hn => absurd hn (by simp)⟩
      · exact ⟨LineState.ok_store s c h hpos, fun hn => absurd hn (by simp)⟩
      · exact ih _ (LineState.ok_store s c h hpos) (by
          show s.bufpos + 1 < BUFFER_MAX
          omega)

/-- C17: for every stream of `getchar_timeout_us` results, with or without
timeouts and line terminators, the character-collection loop of
`read_user_input` writes only the indices `0 .. bufpos - 1` of its 12-byte
buffer, all at most 10; `bufpos` never exceeds `BUFFER_MAX = 11`, the loop has
stopped once 11 characters are stored, and the buffer it leaves has a NUL at
index `bufpos` and at index 11, so the command parser gets a NUL-terminated
string. -/
theorem collect_line_in_bounds (input : List (Option Char)) :
    (∀ i ∈ (collect_line input LineState.init).1.writes, i ≤ 10) ∧
    (collect_line input LineState.init).1.writes
      = List.range (collect_line input LineState.init).1.bufpos ∧
    (collect_line input LineState.init).1.bufpos ≤ BUFFER_MAX ∧
    BUFFER_MAX = 11 ∧
    (collect_line input LineState.init).1.buffer.length = 12 ∧
    ((collect_line input LineState.init).1.bufpos = BUFFER_MAX →
      (collect_line input LineState.init).2 ≠ none) ∧
    (collect_line input LineState.init).1.buffer.getD
      (collect_line input LineState.init).1.bufpos (Char.ofNat 0) = Char.ofNat 0 ∧
    (collect_line input LineState.init).1.buffer.getD 11 (Char.ofNat 0) = Char.ofNat 0 := by
  obtain ⟨⟨hpos, hlen, hw, hnul⟩, hwait⟩ :=
    collect_line_ok input LineState.init LineState.ok_init (by decide)
  refine ⟨?_, hw, hpos, rfl, hlen, ?_, hnul _ (le_refl _), hnul 11 hpos⟩
  · intro i hi
    rw [hw, List.mem_range] at hi
    have : (collect_line input LineState.init).1.bufpos ≤ 11 := hpos
    omega
  · intro hfull hnone
    have := hwait hnone
    omega

/-- C17 on a timeout followed by twelve characters without a terminator: the
loop stops with `bufpos = BUFFER_MAX`, it has been left (the twelfth character
remains unread), and every index written is at most 10. -/
theorem collect_line_in_bounds_witness :
    (collect_line (none :: typed "s12345678901") LineState.init).1.bufpos = BUFFER_MAX ∧
    (collect_line (none :: typed "s12345678901") LineState.init).2 ≠ none ∧
    (∀ i ∈ (collect_line (none :: typed "s12345678901") LineState.init).1.writes, i ≤ 10) :=
  ⟨by decide,
   (collect_line_in_bounds (none :: typed "s12345678901")).2.2.2.2.2.1 (by decide),
   (collect_line_in_bounds (none :: typed "s12345678901")).1⟩

/-- Twelve characters without a terminator, after a timeout: the loop stops
after the eleventh, having written indices 0 to 10, and leaves the twelfth
character unread. -/
theorem collect_line_long_line :
    collect_line (none :: typed "s12345678901") LineState.init
      = ({ buffer := "s1234567890".toList ++ [Char.ofNat 0]
           bufpos := 11
           writes := [0, 1, 2, 3, 4, 5, 6, 7, 8, 9, 10] },
         some (typed "1")) := by
  decide

/-! ### The collected buffer is the line that `read_user_input` dispatches -/

theorem digits_value_replicate_nul (k acc : Nat) :
    digits_value acc (List.replicate k (Char.ofNat 0)) = acc := by
  cases k with
  | zero => rfl
  | succ k =>
    rw [List.replicate_succ, digits_value, if_neg (by decide)]

theorem digits_value_append_nul (cs : List Char) (k : Nat) :
    ∀ acc, digits_value acc (cs ++ List.replicate k (Char.ofNat 0)) = digits_value acc cs := by
  induction cs with
  | nil => intro acc; rw [List.nil_append, digits_value_replicate_nul]; rfl
  | cons c cs ih =>
    intro acc
    rw [List.cons_append, digits_value, digits_value]
    split_ifs
    · exact ih _
    · rfl

/-- NUL bytes after the string do not change what `strtol` converts. -/
theorem strtol_append_nul (m : List Char) (k : Nat) :
    strtol (m ++ List.replicate k (Char.ofNat 0)) = strtol m := by
  induction m with
  | nil =>
    cases k with
    | zero => rfl
    | succ k =>
      show strtol (Char.ofNat 0 :: List.replicate k (Char.ofNat 0)) = strtol []
      conv_lhs => rw [strtol, if_neg (by decide), if_neg (by decide), if_neg (by decide),
        digits_value, if_neg (by decide)]
      rfl
  | cons c cs ih =>
    rw [List.cons_append, strtol, strtol]
    split_ifs
    · exact ih
    · rw [digits_value_append_nul]
    · rw [digits_value_append_nul]
    · rw [← List.cons_append, digits_value_append_nul]

theorem buffer_at_padded (l : List Char) (i : Nat) :
    buffer_at (padded l) i = buffer_at l i := by
  unfold buffer_at padded
  by_cases h : i < l.length
  · rw [List.getD_append _ _ _ _ h]
  · rw [List.getD_append_right _ _ _ _ (by omega), List.getD_eq_getElem?_getD,
      List.getElem?_replicate, List.getD_eq_getElem?_getD,
      List.getElem?_eq_none (by omega)]
    split <;> rfl

theorem strtol_drop_one_padded (l : List Char) :
    strtol ((padded l).drop 1) = strtol (l.drop 1) := by
  unfold padded
  cases l with
  | nil =>
    rw [List.nil_append, List.drop_replicate]
    exact strtol_append_nul [] (BUFFER_MAX + 1 - ([] : List Char).length - 1)
  | cons c cs =>
    rw [List.cons_append, List.drop_succ_cons, List.drop_zero, List.drop_succ_cons,
      List.drop_zero]
    exact strtol_append_nul cs _

/-- The command dispatch reads the 12-byte array as the string stored in it. -/
theorem dispatch_command_padded (hz : Nat) (l : List Char) (st : Config) :
    dispatch_command hz (padded l) st = dispatch_command hz l st := by
  unfold dispatch_command
  rw [buffer_at_padded l 0, buffer_at_padded l 1, strtol_drop_one_padded]

theorem padded_store (l : List Char) (c : Char) (h : l.length < BUFFER_MAX + 1) :
    (padded l).set l.length c = padded (l ++ [c]) := by
  unfold padded
  have hk : BUFFER_MAX + 1 - l.length = (BUFFER_MAX + 1 - (l ++ [c]).length) + 1 := by
    rw [List.length_append, List.length_singleton]
    omega
  rw [hk, List.replicate_succ, List.set_append_right _ _ (le_refl _), Nat.sub_self,
    List.set_cons_zero, List.append_assoc, List.singleton_append]

/-- The loop of `read_user_input` and the character-collection loop agree: when
the collection loop is still waiting at the end of the stream,
`read_user_input` does not return; when it is left, the array it leaves holds a
line of `bufpos` characters padded with NUL, and `read_user_input` dispatches on
that array and either returns or starts the next line on the remaining input. -/
theorem read_user_input_from_collect_line (hz : Nat) (input : List (Option Char)) :
    ∀ (buffer : List Char) (st : Config) (evs : List Ev) (ws : List Nat),
      buffer.length < BUFFER_MAX →
      (∃ line : List Char,
        (collect_line input ⟨padded buffer, buffer.length, ws⟩).1.buffer = padded line ∧
        (collect_line input ⟨padded buffer, buffer.length, ws⟩).1.bufpos = line.length) ∧
      ((collect_line input ⟨padded buffer, buffer.length, ws⟩).2 = none →
        read_user_input_from hz input buffer st evs = none) ∧
      (∀ rest, (collect_line input ⟨padded buffer, buffer.length, ws⟩).2 = some rest →
        ∃ evs1,
          read_user_input_from hz input buffer st evs
            = if (dispatch_command hz
                  (collect_line input ⟨padded buffer, buffer.length, ws⟩).1.buffer st).2.2 = true
              then
                some ⟨(dispatch_command hz
                    (collect_line input ⟨padded buffer, buffer.length, ws⟩).1.buffer st).1,
                  rest,
                  evs1 ++ (dispatch_command hz
                    (collect_line input ⟨padded buffer, buffer.length, ws⟩).1.buffer st).2.1⟩
              else
                read_user_input_from hz rest []
                  (dispatch_command hz
                    (collect_line input ⟨padded buffer, buffer.length, ws⟩).1.buffer st).1
                  (evs1 ++ (dispatch_command hz
                    (collect_line input ⟨padded buffer, buffer.length, ws⟩).1.buffer
                      st).2.1)) := by
  induction input with
  | nil =>
    intro buffer st evs ws _
    exact ⟨⟨buffer, rfl, rfl⟩, fun _ => rfl, fun rest h => absurd h (by simp [collect_line])⟩
  | cons x tail ih =>
    intro buffer st evs ws hlen
    cases x with
    | none =>
      rw [collect_line, read_user_input_from]
      exact ih buffer st evs ws hlen
    | some c =>
      rw [collect_line, read_user_input_from]
      dsimp only
      by_cases hnl : c = '\r' ∨ c = '\n'
      · rw [if_pos hnl, if_pos hnl]
        dsimp only
        refine ⟨⟨buffer, rfl, rfl⟩, fun h => absurd h (by simp), ?_⟩
        intro rest hrest
        rw [Option.some.injEq] at hrest
        subst hrest
        rw [dispatch_command_padded]
        exact ⟨evs ++ [Ev.printf "\n" []], rfl⟩
      · rw [if_neg hnl, if_neg hnl]
        by_cases hfull : buffer.length + 1 ≥ BUFFER_MAX
        · rw [if_pos hfull, if_pos hfull]
          dsimp only
          rw [padded_store buffer c (by omega)]
          refine ⟨⟨buffer ++ [c], rfl, by simp⟩, fun h => absurd h (by simp), ?_⟩
          intro rest hrest
          rw [Option.some.injEq] at hrest
          subst hrest
          rw [dispatch_command_padded]
          exact ⟨evs ++ [Ev.printf "%c" [Arg.int c.toNat], Ev.printf "\n" []], rfl⟩
        · rw [if_neg hfull, if_neg hfull, padded_store buffer c (by omega)]
          have hl : buffer.length + 1 = (buffer ++ [c]).length := by simp
          rw [hl]
          exact ih (buffer ++ [c]) st _ _ (by rw [← hl]; omega)

/-! ## C16: the frame of a command line in `read_user_input` -/

/-- The dispatch of any buffer obeys the frame of its first character. -/
theorem frame_ok_dispatch_command (hz : Nat) (buffer : List Char) (st : Config) :
    frame_ok (buffer_at buffer 0) st (dispatch_command hz buffer st).1 := by
  obtain ⟨hp, hn, hs, ht, hf, ho⟩ := dispatch_command_frame hz buffer st
  unfold frame_ok
  split_ifs with h1 h2 h3 h4 h5
  · exact hp h1
  · exact hn h2
  · exact hs h3
  · exact ht h4
  · exact hf h5
  · exact ho h1 h2 h3 h4 h5

/-- An empty line prints the help text and changes nothing. -/
theorem dispatch_command_empty (hz : Nat) (st : Config) :
    (dispatch_command hz [] st).1 = st ∧ (dispatch_command hz [] st).2.2 = false := by
  have h0 : buffer_at [] 0 = Char.ofNat 0 := rfl
  constructor
  · exact dispatch_command_other hz [] st (by rw [h0]; decide) (by rw [h0]; decide)
      (by rw [h0]; decide) (by rw [h0]; decide) (by rw [h0]; decide)
  · unfold dispatch_command
    rw [h0, if_neg (by decide), if_neg (by decide), if_neg (by decide), if_neg (by decide),
      if_neg (by decide), if_neg (by decide)]

/-- Timeouts followed by a terminator on an empty buffer are an empty line:
the loop goes on with the same configuration. -/
theorem read_user_input_from_idle (hz : Nat) (t : Char) (rest : List (Option Char))
    (ht : t = '\r' ∨ t = '\n') :
    ∀ (s : List (Option Char)) (st : Config) (evs : List Ev), s.reduceOption = [] →
      ∃ evs1, read_user_input_from hz (s ++ some t :: rest) [] st evs
        = read_user_input_from hz rest [] st evs1 := by
  intro s
  induction s with
  | nil =>
    intro st evs _
    rw [List.nil_append, read_user_input_from, if_pos ht]
    dsimp only
    rw [(dispatch_command_empty hz st).2, (dispatch_command_empty hz st).1]
    exact ⟨_, rfl⟩
  | cons x s ih =>
    intro st evs hs
    cases x with
    | none =>
      rw [List.cons_append, read_user_input_from]
      exact ih st evs (by rwa [List.reduceOption_cons_of_none] at hs)
    | some c =>
      rw [List.reduceOption_cons_of_some] at hs
      exact absurd hs (List.cons_ne_nil _ _)

/-- A line of at most `BUFFER_MAX` characters, with any timeouts in between and
then a terminator, is dispatched once, as the characters typed: afterwards
`read_user_input` has returned with the configuration of that dispatch, or
goes on reading the rest of the input from that configuration. -/
theorem read_user_input_from_line (hz : Nat) (t : Char) (rest : List (Option Char))
    (ht : t = '\r' ∨ t = '\n') :
    ∀ (stream : List (Option Char)) (buffer : List Char) (st : Config) (evs : List Ev),
      (∀ x ∈ stream, x ≠ some '\r' ∧ x ≠ some '\n') →
      buffer.length + stream.reduceOption.length ≤ BUFFER_MAX →
      buffer.length < BUFFER_MAX →
      ∃ evs1,
        (∃ rest1, read_user_input_from hz (stream ++ some t :: rest) buffer st evs
          = some ⟨(dispatch_command hz (buffer ++ stream.reduceOption) st).1, rest1, evs1⟩) ∨
        read_user_input_from hz (stream ++ some t :: rest) buffer st evs
          = read_user_input_from hz rest []
              (dispatch_command hz (buffer ++ stream.reduceOption) st).1 evs1 := by
  intro stream
  induction stream with
  | nil =>
    intro buffer st evs _ _ _
    rw [List.nil_append, read_user_input_from, if_pos ht, List.reduceOption_nil,
      List.append_nil]
    dsimp only
    by_cases hgo : (dispatch_command hz buffer st).2.2 = true
    · rw [if_pos hgo]
      exact ⟨_, Or.inl ⟨rest, rfl⟩⟩
    · rw [if_neg hgo]
      exact ⟨_, Or.inr rfl⟩
  | cons x s ih =>
    intro buffer st evs hline hlen hroom
    have hline' : ∀ y ∈ s, y ≠ some '\r' ∧ y ≠ some '\n' :=
      fun y hy => hline y (List.mem_cons_of_mem x hy)
    cases x with
    | none =>
      rw [List.cons_append, read_user_input_from, List.reduceOption_cons_of_none]
      rw [List.reduceOption_cons_of_none] at hlen
      exact ih buffer st evs hline' hlen hroom
    | some c =>
      have hc := hline (some c) (List.mem_cons_self _ _)
      have hnl : ¬ (c = '\r' ∨ c = '\n') := by
        rintro (h | h)
        · exact hc.1 (by rw [h])
        · exact hc.2 (by rw [h])
      rw [List.reduceOption_cons_of_some, List.length_cons] at hlen
      rw [List.cons_append, read_user_input_from, if_neg hnl, List.reduceOption_cons_of_some]
      by_cases hfull : buffer.length + 1 ≥ BUFFER_MAX
      · rw [if_pos hfull]
        dsimp only
        have hempty : s.reduceOption = [] := List.length_eq_zero.mp (by omega)
        rw [hempty]
        by_cases hgo : (dispatch_command hz (buffer ++ [c]) st).2.2 = true
        · rw [if_pos hgo]
          exact ⟨_, Or.inl ⟨_, rfl⟩⟩
        · rw [if_neg hgo]
          obtain ⟨evs1, h1⟩ := read_user_input_from_idle hz t rest ht s
            (dispatch_command hz (buffer ++ [c]) st).1
            (evs ++ [Ev.printf "%c" [Arg.int c.toNat], Ev.printf "\n" []]
              ++ (dispatch_command hz (buffer ++ [c]) st).2.1) hempty
          exact ⟨evs1, Or.inr h1⟩
      · rw [if_neg hfull]
        have hassoc : buffer ++ c :: s.reduceOption = (buffer ++ [c]) ++ s.reduceOption := by
          rw [List.append_assoc, List.singleton_append]
        rw [hassoc]
        exact ih (buffer ++ [c]) st _ hline'
          (by rw [List.length_append, List.length_singleton]; omega)
          (by rw [List.length_append, List.length_singleton]; omega)

/-- C16 (amended): for every configuration and every input line of at most 11
characters (what the line buffer holds), typed with any timeouts in between
and ended by a terminator, `read_user_input` processes the line as one
dispatch of the characters typed and then returns or reads on from the
resulting configuration; that dispatch, like the dispatch of any collected
buffer, changes at most the variables of the command letter: `p` only
`CAPTURE_PIN_BASE`, `n` only `CAPTURE_PIN_COUNT`, `s` only `CAPTURE_N_SAMPLES`,
`t` only `TRIGGER`, `f` only `FREQUENCY` and `FREQ_DIV`, and `g` or any other
first character nothing. -/
theorem read_user_input_line_frame (hz : Nat) (stream : List (Option Char)) (t : Char)
    (rest : List (Option Char)) (st : Config) (evs : List Ev)
    (ht : t = '\r' ∨ t = '\n')
    (hline : ∀ x ∈ stream, x ≠ some '\r' ∧ x ≠ some '\n')
    (hlen : stream.reduceOption.length ≤ BUFFER_MAX) :
    BUFFER_MAX = 11 ∧
    (∀ buffer : List Char,
      frame_ok (buffer_at buffer 0) st (dispatch_command hz buffer st).1) ∧
    frame_ok (buffer_at stream.reduceOption 0) st
      (dispatch_command hz stream.reduceOption st).1 ∧
    ∃ evs1,
      (∃ rest1, read_user_input_from hz (stream ++ some t :: rest) [] st evs
        = some ⟨(dispatch_command hz stream.reduceOption st).1, rest1, evs1⟩) ∨
      read_user_input_from hz (stream ++ some t :: rest) [] st evs
        = read_user_input_from hz rest [] (dispatch_command hz stream.reduceOption st).1 evs1 := by
  refine ⟨rfl, fun buffer => frame_ok_dispatch_command hz buffer st,
    frame_ok_dispatch_command hz _ st, ?_⟩
  have h := read_user_input_from_line hz t rest ht stream [] st evs hline
    (by rw [List.length_nil, Nat.zero_add]; exact hlen) (by decide)
  rw [List.nil_append] at h
  exact h

/-- C16 on the line `n3` typed after a timeout and ended by a carriage return,
in the default configuration with `g` to follow: the line has two characters,
its dispatch sets only `CAPTURE_PIN_COUNT`, to 3, and `read_user_input` goes on
reading `g` from that configuration. -/
theorem read_user_input_line_frame_witness :
    (none :: typed "n3").reduceOption = "n3".toList ∧
    (dispatch_command 125000000 "n3".toList default_config).1
      = { default_config with CAPTURE_PIN_COUNT := 3 } ∧
    frame_ok 'n' default_config { default_config with CAPTURE_PIN_COUNT := 3 } ∧
    frame_ok (buffer_at (none :: typed "n3").reduceOption 0) default_config
      (dispatch_command 125000000 (none :: typed "n3").reduceOption default_config).1 ∧
    ∃ evs1,
      (∃ rest1, read_user_input_from 125000000 ((none :: typed "n3") ++ some '\r' :: typed "g\r")
          [] default_config []
        = some ⟨(dispatch_command 125000000 (none :: typed "n3").reduceOption
            default_config).1, rest1, evs1⟩) ∨
      read_user_input_from 125000000 ((none :: typed "n3") ++ some '\r' :: typed "g\r")
          [] default_config []
        = read_user_input_from 125000000 (typed "g\r") []
            (dispatch_command 125000000 (none :: typed "n3").reduceOption default_config).1
            evs1 :=
  ⟨by decide, by decide, by decide,
   (read_user_input_line_frame 125000000 (none :: typed "n3") '\r' (typed "g\r")
     default_config [] (Or.inl rfl) (by decide) (by decide)).2.2⟩

/-- C16 as stated fails for lines longer than the line buffer: the loop of
lines 116-125 cuts a line after 11 characters and reads what follows as a new
command.  The 13-character line `xxxxxxxxxxxn5` starts with `x`, yet after it
and `g` the pin count is 5; the line `p1xxxxxxxxxs7` starts with `p`, yet after
it and `g` the sample count is 7 (and the pin base 1). -/
theorem read_user_input_long_line_breaks_frame :
    ("xxxxxxxxxxxn5".toList.length = 13 ∧
      (read_user_input 125000000 (typed "xxxxxxxxxxxn5\rg\r") default_config).map
          ReadResult.config
        = some { default_config with CAPTURE_PIN_COUNT := 5 } ∧
      ¬ frame_ok 'x' default_config { default_config with CAPTURE_PIN_COUNT := 5 }) ∧
    ("p1xxxxxxxxxs7".toList.length = 13 ∧
      (read_user_input 125000000 (typed "p1xxxxxxxxxs7\rg\r") default_config).map
          ReadResult.config
        = some { default_config with CAPTURE_PIN_BASE := 1, CAPTURE_N_SAMPLES := 7 } ∧
      ¬ frame_ok 'p' default_config
          { default_config with CAPTURE_PIN_BASE := 1, CAPTURE_N_SAMPLES := 7 }) := by
  decide

end LogicAnalyzer
